import Mathlib

/-!
Verification development for the guidance intersection model builder
(`src/extractor/guidance/intersection_generator.cpp` and
`include/extractor/guidance/mergable-roads.hpp`).

The C++ core is embedded shallowly: node and edge identifiers become `Nat`,
`double` angles and distances become `ℚ`, and the external collaborators
(graph container, restriction map, barrier set, coordinate extractor, name
tables, graph walker) become fields of an `Env` record, since the core only
consumes them through narrow read-only interfaces.  Every function of the
core itself is translated from its source.
-/

namespace OSRM

abbrev NodeID := Nat
abbrev EdgeID := Nat

/-- Sentinel node id (`SPECIAL_NODEID`, `std::numeric_limits<unsigned>::max()`). -/
def SPECIAL_NODEID : NodeID := 4294967295

/-- Sentinel edge id (`SPECIAL_EDGEID`). -/
def SPECIAL_EDGEID : EdgeID := 4294967295

/-- `EMPTY_NAMEID`: sentinel for an anonymous street name. -/
def EMPTY_NAMEID : Nat := 0

/-- `std::numeric_limits<double>::epsilon()`, i.e. `2^-52`, as an exact rational. -/
def MACHINE_EPS : ℚ := 1 / 2 ^ 52

/-- `TurnType::Invalid` (first enumerator). -/
def TURN_TYPE_INVALID : Nat := 0

/-- `DirectionModifier::UTurn` (first enumerator). -/
def DIRECTION_MODIFIER_UTURN : Nat := 0

/-- `INVALID_LANE_DATAID`. -/
def INVALID_LANE_DATAID : Nat := 4294967295

/-- The `INVERT` flag passed to the coordinate extractor. -/
def INVERT : Bool := true

/-- Road classification data carried by a node-based edge
(`road_classification` with its lane count). -/
structure RoadClassification where
  roadClass : Nat
  numberOfLanes : Nat
deriving DecidableEq, Repr, Inhabited

/-- The edge data consumed from the node-based graph:
`{ reversed, travel_mode, roundabout, name_id, road_classification }`. -/
structure EdgeData where
  reversed : Bool
  travel_mode : Nat
  roundabout : Bool
  name_id : Nat
  road_classification : RoadClassification
deriving DecidableEq, Repr, Inhabited

/-- A latitude/longitude pair.  Only ever consumed by the geometric oracles. -/
structure Coordinate where
  lat : ℚ
  lon : ℚ
deriving DecidableEq, Repr, Inhabited

/-- `ConnectedRoad`: a `TurnOperation` (edge id, angle, bearing, turn
instruction, lane data) together with the `entry_allowed` flag. -/
structure ConnectedRoad where
  eid : EdgeID
  angle : ℚ
  bearing : ℚ
  instrType : Nat
  instrModifier : Nat
  laneData : Nat
  entry_allowed : Bool
deriving DecidableEq, Repr, Inhabited

/-- An Intersection is an (angle-sorted) sequence of connected roads. -/
abbrev Intersection := List ConnectedRoad

/-- The immutable context a builder call runs against.  Graph accessors and
restriction/barrier/name collaborators mirror the C++ interfaces; the
geometric primitives (`computeAngle`, `bearing`, `haversineDistance`, the
coordinate extractor and the graph-walker coordinate sampling) are external
to the two source files and are therefore oracles of the environment. -/
structure Env where
  adjacentEdges : NodeID → List EdgeID
  target : EdgeID → NodeID
  edgeData : EdgeID → EdgeData
  findEdge : NodeID → NodeID → EdgeID
  checkForEmanatingIsOnlyTurn : NodeID → NodeID → NodeID
  checkIfTurnIsRestricted : NodeID → NodeID → NodeID → Bool
  barrierNodes : NodeID → Bool
  nodeCoord : NodeID → Coordinate
  /-- Modelled from the spec: `coordinate_extractor.coordinate_along_road
  (origin, edge, invert_flag, other_endpoint, lane_count)`, an anchored
  look-ahead/back respecting multi-lane offsets (the coordinate extractor
  itself is an external collaborator). -/
  coordinateAlongRoad : NodeID → EdgeID → Bool → NodeID → Nat → Coordinate
  /-- Modelled from the spec: `computeAngle(first, turn, third)`, the turn
  angle at the intersection node, in `[0, 360)`. -/
  computeAngle : Coordinate → Coordinate → Coordinate → ℚ
  /-- Modelled from the spec: compass bearing between two coordinates, in
  `[0, 360)`. -/
  bearing : Coordinate → Coordinate → ℚ
  /-- Modelled from the spec: great-circle distance in metres. -/
  haversineDistance : Coordinate → Coordinate → ℚ
  /-- Modelled from the spec: the coordinates sampled by walking straightly
  along an edge chain up to a length limit (`GraphWalker` with the
  `LengthLimitedCoordinateAccumulator` and `StraightNameSelector`, both
  outside the two source files). -/
  coordinatesAlongWay : NodeID → EdgeID → ℚ → List Coordinate
  /-- Modelled from the spec: `coordinate_extractor.sample_coordinates
  (poly, max_total, stride)`. -/
  sampleCoordinates : List Coordinate → ℚ → Nat → List Coordinate
  /-- Modelled from the spec: mean-lateral-deviation parallelism test between
  two polylines with the given tolerance. -/
  areParallel : List Coordinate → List Coordinate → ℚ → Bool
  /-- Modelled from the spec: `√n` (used only inside the parallelism
  tolerance `4·√max(2, lane_count)`; irrational, hence an oracle). -/
  sqrtVal : Nat → ℚ
  /-- Modelled from the spec: the constant `MAXIMAL_ALLOWED_NO_TURN_DEVIATION`
  from the (external) constants header; the spec does not fix its value. -/
  maximalAllowedNoTurnDeviation : ℚ
  /-- Modelled from the spec: `requires_name_announced(n1, n2)` over the name
  and suffix tables. -/
  requiresNameAnnounced : Nat → Nat → Bool
  /-- Modelled from the spec: `getLaneCountAtIntersection` (guidance toolkit,
  external to the two source files): a lane count for the anchor offset. -/
  laneCountAtIntersection : NodeID → Nat

/-- `GetOutDegree`. -/
def Env.outDegree (env : Env) (n : NodeID) : Nat :=
  (env.adjacentEdges n).length

/-- Absolute value on `ℚ`, written so that it evaluates by kernel reduction. -/
def qabs (a : ℚ) : ℚ := if a < 0 then -a else a

/-- Binary minimum on `ℚ`, written so that it evaluates by kernel reduction. -/
def qmin (a b : ℚ) : ℚ := if a ≤ b then a else b

/-- Reduction of a rational modulo 360 into `[0, 360)`, written so that it
evaluates by kernel reduction. -/
def qmod360 (d : ℚ) : ℚ := d - 360 * ((d / 360).floor : ℤ)

/-- Modelled from the spec: `angularDeviation`, the cyclic distance on
`[0, 360)`; symmetric and within `[0, 180]` (the guidance toolkit that
defines it is external to the two source files). -/
def angularDeviation (a b : ℚ) : ℚ :=
  let m := qmod360 (qabs (a - b))
  qmin m (360 - m)

/-- Modelled from the spec: `angleBetween(a, b)`, the midpoint of the shorter
arc between two circle positions, reduced into `[0, 360)`; at the ambiguous
distance of exactly 180° the plain average (the clockwise midpoint) is
chosen for determinism. -/
def angleBetween (a b : ℚ) : ℚ :=
  if qabs (a - b) ≤ 180 then (a + b) / 2
  else qmod360 ((a + b) / 2 + 180)

/-- `adjustAngle` from `AdjustForJoiningRoads`: add an offset and fold the
result back across the 0/360 boundary. -/
def adjustAngle (angle offset : ℚ) : ℚ :=
  let a := angle + offset
  if a > 360 then a - 360
  else if a < 0 then a + 360
  else a

/-! ### GetConnectedRoads -/

/-- The resolved only-turn restriction: an only-turn emanating from
`(from, turn_node)` is remembered only when its target is in fact adjacent
to `turn_node`; broken only-restrictions are ignored. -/
def onlyRestrictionToNode (env : Env) (frm turnNode : NodeID) : NodeID :=
  let r := env.checkForEmanatingIsOnlyTurn frm turnNode
  if r ≠ SPECIAL_NODEID ∧ (env.adjacentEdges turnNode).any (fun e => env.target e == r) then r
  else SPECIAL_NODEID

/-- The base turn validity of an onto-edge: not a reverse edge, not turning
over a barrier (barriers permit only the u-turn), compatible with a
remembered only-turn, and not forbidden by the restriction map. -/
def baseTurnValid (env : Env) (frm turnNode : NodeID) (onlyTo : NodeID) (onto : EdgeID) :
    Bool :=
  let toNode := env.target onto
  !(env.edgeData onto).reversed &&
    (!env.barrierNodes turnNode || frm == toNode) &&
    (onlyTo == SPECIAL_NODEID || toNode == onlyTo) &&
    !env.checkIfTurnIsRestricted frm turnNode toNode

/-- The number of adjacent edges of `turnNode` whose reverse edge is not a
reversed placeholder (`number_of_emmiting_bidirectional_edges`). -/
def emittingBidirectionalEdges (env : Env) (turnNode : NodeID) : Nat :=
  ((env.adjacentEdges turnNode).filter
    (fun e => !(env.edgeData (env.findEdge (env.target e) turnNode)).reversed)).length

/-- Final validity of a u-turn onto-edge after the dead-end refinement: when
the u-turn passes the base checks at a non-barrier node of out-degree above
one, it stays valid only if the node emits at most one bidirectional edge. -/
def uturnScanValid (env : Env) (frm turnNode : NodeID) (onlyTo : NodeID) (onto : EdgeID) :
    Bool :=
  let base := baseTurnValid env frm turnNode onlyTo onto
  if base && !env.barrierNodes turnNode then
    if env.outDegree turnNode > 1 then
      decide (emittingBidirectionalEdges env turnNode ≤ 1)
    else base
  else base

/-- The anchored coordinate on the incoming side of the via edge. -/
def firstCoordinate (env : Env) (frm : NodeID) (viaEid : EdgeID) (turnNode : NodeID)
    (lanes : Nat) : Coordinate :=
  env.coordinateAlongRoad frm viaEid INVERT turnNode lanes

/-- The computed turn angle for a non-u-turn onto-edge. -/
def scanAngle (env : Env) (frm : NodeID) (viaEid : EdgeID) (turnNode : NodeID)
    (lanes : Nat) (onto : EdgeID) : ℚ :=
  let toNode := env.target onto
  let firstC := firstCoordinate env frm viaEid turnNode lanes
  let thirdC := env.coordinateAlongRoad turnNode onto (!INVERT) toNode lanes
  env.computeAngle firstC (env.nodeCoord turnNode) thirdC

/-- The compass bearing for a non-u-turn onto-edge. -/
def scanBearing (env : Env) (turnNode : NodeID) (lanes : Nat) (onto : EdgeID) : ℚ :=
  let toNode := env.target onto
  let thirdC := env.coordinateAlongRoad turnNode onto (!INVERT) toNode lanes
  env.bearing (env.nodeCoord turnNode) thirdC

/-- The connected road built for one onto-edge during the scan. -/
def roadFor (env : Env) (frm : NodeID) (viaEid : EdgeID) (turnNode : NodeID)
    (onlyTo : NodeID) (lanes : Nat) (onto : EdgeID) : ConnectedRoad :=
  let toNode := env.target onto
  if frm = toNode then
    { eid := onto
      angle := 0
      bearing := env.bearing (env.nodeCoord turnNode)
        (firstCoordinate env frm viaEid turnNode lanes)
      instrType := TURN_TYPE_INVALID
      instrModifier := DIRECTION_MODIFIER_UTURN
      laneData := INVALID_LANE_DATAID
      entry_allowed := uturnScanValid env frm turnNode onlyTo onto }
  else
    { eid := onto
      angle := scanAngle env frm viaEid turnNode lanes onto
      bearing := scanBearing env turnNode lanes onto
      instrType := TURN_TYPE_INVALID
      instrModifier := DIRECTION_MODIFIER_UTURN
      laneData := INVALID_LANE_DATAID
      entry_allowed := baseTurnValid env frm turnNode onlyTo onto }

/-- Whether the scan flagged a u-turn: an onto-edge leading back to `frm`,
or any other onto-edge whose computed angle falls below machine epsilon. -/
def hasUturnEdge (env : Env) (frm : NodeID) (viaEid : EdgeID) (turnNode : NodeID)
    (lanes : Nat) : Bool :=
  (env.adjacentEdges turnNode).any fun onto =>
    env.target onto == frm ||
      (env.target onto != frm &&
        decide (qabs (scanAngle env frm viaEid turnNode lanes onto) < MACHINE_EPS))

/-- The value the `uturn_could_be_valid` flag holds after the scan (each
u-turn onto-edge overwrites it with its base validity). -/
def uturnCouldBeValid (env : Env) (frm turnNode : NodeID) (onlyTo : NodeID) : Bool :=
  (env.adjacentEdges turnNode).foldl
    (fun acc onto =>
      if env.target onto = frm then baseTurnValid env frm turnNode onlyTo onto else acc)
    false

/-- The artificial invalid u-turn appended for a street leading into
nothingness; its anchor uses the via edge's own lane count. -/
def syntheticUturn (env : Env) (frm : NodeID) (viaEid : EdgeID) (turnNode : NodeID) :
    ConnectedRoad :=
  let lanes := (env.edgeData viaEid).road_classification.numberOfLanes
  { eid := viaEid
    angle := 0
    bearing := env.bearing (env.nodeCoord turnNode)
      (firstCoordinate env frm viaEid turnNode lanes)
    instrType := TURN_TYPE_INVALID
    instrModifier := DIRECTION_MODIFIER_UTURN
    laneData := INVALID_LANE_DATAID
    entry_allowed := false }

/-- The angle order used by `std::sort(..., &ConnectedRoad::compareByAngle)`.
Modelled from the spec: ascending by angle; the sort need not be stable, so
any order consistent with the angles is a faithful refinement. -/
def byAngle (a b : ConnectedRoad) : Prop := a.angle ≤ b.angle

instance : DecidableRel byAngle := fun a b => inferInstanceAs (Decidable (a.angle ≤ b.angle))

instance : IsTotal ConnectedRoad byAngle := ⟨fun a b => le_total a.angle b.angle⟩

instance : IsTrans ConnectedRoad byAngle := ⟨fun _ _ _ h h' => le_trans h h'⟩

/-- Sorting an intersection ascending by angle. -/
def sortByAngle (l : Intersection) : Intersection := l.insertionSort byAngle

/-- `List.set`, re-derived structurally so that its interaction lemmas stay
elementary. -/
def setAt : Intersection → Nat → ConnectedRoad → Intersection
  | [], _, _ => []
  | _ :: rs, 0, v => v :: rs
  | r :: rs, i + 1, v => r :: setAt rs i v

/-- Indexed access with the default road (mirrors unchecked `operator[]`). -/
def nth (l : Intersection) (i : Nat) : ConnectedRoad := l.getD i default

/-- The scanned (unsorted) list of connected roads, for a resolved only-turn
restriction. -/
def scannedRoads (env : Env) (frm : NodeID) (viaEid : EdgeID) (onlyTo : NodeID) :
    Intersection :=
  let turnNode := env.target viaEid
  let lanes := env.laneCountAtIntersection turnNode
  (env.adjacentEdges turnNode).map (roadFor env frm viaEid turnNode onlyTo lanes)

/-- The scan result with the artificial u-turn appended when none was found. -/
def withSynthetic (env : Env) (frm : NodeID) (viaEid : EdgeID) (onlyTo : NodeID) :
    Intersection :=
  let turnNode := env.target viaEid
  let lanes := env.laneCountAtIntersection turnNode
  if hasUturnEdge env frm viaEid turnNode lanes then scannedRoads env frm viaEid onlyTo
  else scannedRoads env frm viaEid onlyTo ++ [syntheticUturn env frm viaEid turnNode]

/-- The sorted intersection before the dead-end fix-up. -/
def sortedRaw (env : Env) (frm : NodeID) (viaEid : EdgeID) (onlyTo : NodeID) :
    Intersection :=
  sortByAngle (withSynthetic env frm viaEid onlyTo)

/-- The post-sort dead-end fix-up: when no road is valid but the u-turn could
be, walk past the sub-epsilon non-u-turn entries and mark the u-turn valid. -/
def applyDeadEndFlag (env : Env) (frm : NodeID) (could : Bool) (l : Intersection) :
    Intersection :=
  if l.countP (·.entry_allowed) = 0 ∧ could then
    let idx := l.findIdx fun r => !(decide (r.angle < MACHINE_EPS) && (env.target r.eid != frm))
    setAt l idx { nth l idx with entry_allowed := true }
  else l

/-- `IntersectionGenerator::GetConnectedRoads`. -/
def GetConnectedRoads (env : Env) (frm : NodeID) (viaEid : EdgeID) : Intersection :=
  let turnNode := env.target viaEid
  let onlyTo := onlyRestrictionToNode env frm turnNode
  applyDeadEndFlag env frm (uturnCouldBeValid env frm turnNode onlyTo)
    (sortedRaw env frm viaEid onlyTo)

/-! ### CanMerge -/

/-- `haveCompatibleRoadData`: one reversed and one non-reversed edge, the
same travel mode, and the same road classification. -/
def haveCompatibleRoadData (lhs rhs : EdgeData) : Bool :=
  if lhs.reversed == rhs.reversed then false
  else if lhs.travel_mode != rhs.travel_mode then false
  else lhs.road_classification == rhs.road_classification

/-- `haveSameDirection`: the sampled-parallelism test.  Sample up to 100 m of
coordinates down each road, down-sample with stride 5, require at least 8
samples on both sides and a mean lateral deviation within
`4·√max(2, lane_count)` metres. -/
def haveSameDirection (env : Env) (intersectionNode : NodeID) (lhs rhs : ConnectedRoad) :
    Bool :=
  if angularDeviation lhs.angle rhs.angle > 90 then false
  else
    let coordinatesToTheLeft :=
      env.sampleCoordinates (env.coordinatesAlongWay intersectionNode lhs.eid 100) 100 5
    let coordinatesToTheRight :=
      env.sampleCoordinates (env.coordinatesAlongWay intersectionNode rhs.eid 100) 100 5
    if coordinatesToTheLeft.length < 8 ∨ coordinatesToTheRight.length < 8 then false
    else
      let laneCount := max 2
        (max (env.edgeData lhs.eid).road_classification.numberOfLanes
          (env.edgeData rhs.eid).road_classification.numberOfLanes)
      env.areParallel coordinatesToTheLeft coordinatesToTheRight (4 * env.sqrtVal laneCount)

/-- `canMergeRoad`: roundabout edges are never merged, a merge may not hide
two valid entries, the edge data must describe one road in opposite
directions, the angles must be within 60°, and the sampled-parallelism test
must pass (the narrow-triangle test is disabled by a `false &&` guard and
the connect-again test is commented out in the dispatcher). -/
def canMergeRoad (env : Env) (intersectionNode : NodeID) (lhs rhs : ConnectedRoad) : Bool :=
  let lhsData := env.edgeData lhs.eid
  let rhsData := env.edgeData rhs.eid
  if lhsData.roundabout || rhsData.roundabout then false
  else if lhs.entry_allowed && rhs.entry_allowed then false
  else if !haveCompatibleRoadData lhsData rhsData then false
  else if angularDeviation lhs.angle rhs.angle > 60 then false
  else haveSameDirection env intersectionNode lhs rhs

/-- `IntersectionGenerator::CanMerge`: mergeability of two entries of an
intersection.  Degree-two intersections never merge, both names must be
non-empty and must not require an announcement, and `canMergeRoad` must
accept the pair. -/
def CanMerge (env : Env) (nodeAtIntersection : NodeID) (intersection : Intersection)
    (firstIndex secondIndex : Nat) : Bool :=
  let firstData := env.edgeData (nth intersection firstIndex).eid
  let secondData := env.edgeData (nth intersection secondIndex).eid
  if intersection.length ≤ 2 then false
  else if firstData.name_id == EMPTY_NAMEID || secondData.name_id == EMPTY_NAMEID then false
  else if env.requiresNameAnnounced firstData.name_id secondData.name_id then false
  else canMergeRoad env nodeAtIntersection (nth intersection firstIndex)
    (nth intersection secondIndex)

/-! ### MergeSegregatedRoads -/

/-- The pairwise `merge` of two adjacent entries: the result is a copy of the
`entry_allowed` one (of the first when it is allowed, otherwise of the
second), with angle and bearing replaced by the angular midpoints. -/
def mergeRoads (first second : ConnectedRoad) : ConnectedRoad :=
  let result := if first.entry_allowed then first else second
  { result with
    angle := angleBetween first.angle second.angle
    bearing := angleBetween first.bearing second.bearing }

/-- Indexed map used for the angle-correction shifts of the u-turn merges. -/
def mapIdxFrom (f : Nat → ConnectedRoad → ConnectedRoad) :
    Nat → Intersection → Intersection
  | _, [] => []
  | i, r :: rs => f i r :: mapIdxFrom f (i + 1) rs

theorem setAt_length (l : Intersection) (i : Nat) (v : ConnectedRoad) :
    (setAt l i v).length = l.length := by
  induction l generalizing i with
  | nil => rfl
  | cons r rs ih =>
    cases i with
    | zero => rfl
    | succ j => simpa [setAt] using ih j

/-- One step of the sweep of `MergeSegregatedRoads` at `index`: fold the
entry into its (circular) predecessor when that predecessor is still live
and the pair is mergeable; the folded entry is marked dead with the
sentinel edge id. -/
def mergeSweepStep (env : Env) (intersectionNode : NodeID) (l : Intersection)
    (index : Nat) : Intersection :=
  let previousIndex := index - 1
  if (nth l previousIndex).eid ≠ SPECIAL_EDGEID ∧
      CanMerge env intersectionNode l index previousIndex then
    setAt (setAt l previousIndex (mergeRoads (nth l previousIndex) (nth l index)))
      index { nth l index with eid := SPECIAL_EDGEID }
  else l

/-- The sweep of `MergeSegregatedRoads` from index 2 upward.  Each step
preserves the length, so the loop bound can be fixed up front. -/
def mergeSweep (env : Env) (intersectionNode : NodeID) (l : Intersection) : Intersection :=
  (List.range' 2 (l.length - 2)).foldl (mergeSweepStep env intersectionNode) l

/-- `IntersectionGenerator::MergeSegregatedRoads`. -/
def MergeSegregatedRoads (env : Env) (intersectionNode : NodeID)
    (intersection : Intersection) : Intersection :=
  if intersection.length ≤ 1 then intersection
  else
    let n := intersection.length
    let isConnectedToRoundabout :=
      intersection.any fun road => (env.edgeData road.eid).roundabout
    let afterFirst : Intersection × Bool :=
      if CanMerge env intersectionNode intersection 0 (n - 1) then
        -- moving `a` to the left: shift all non-endpoint entries by the correction
        let correctionFactor := (360 - (nth intersection (n - 1)).angle) / 2
        let shifted := mapIdxFrom
          (fun i r => if 1 ≤ i ∧ i + 1 < n then { r with angle := r.angle + correctionFactor }
            else r) 0 intersection
        let merged0 := { mergeRoads (nth intersection 0) (nth intersection (n - 1)) with
          angle := 0 }
        ((setAt shifted 0 merged0).dropLast, true)
      else if CanMerge env intersectionNode intersection 0 1 then
        -- moving `a` to the right: shift entries from index 2 on by the correction
        let correctionFactor := (nth intersection 1).angle / 2
        let shifted := mapIdxFrom
          (fun i r => if 2 ≤ i then { r with angle := r.angle - correctionFactor } else r)
          0 intersection
        let merged0 := { mergeRoads (nth intersection 0) (nth intersection 1) with
          angle := 0 }
        ((setAt shifted 0 merged0).eraseIdx 1, true)
      else (intersection, false)
    let afterRoundabout :=
      if afterFirst.2 ∧ isConnectedToRoundabout then
        setAt afterFirst.1 0 { nth afterFirst.1 0 with entry_allowed := false }
      else afterFirst.1
    let swept := mergeSweep env intersectionNode afterRoundabout
    let live := swept.filter fun road => road.eid ≠ SPECIAL_EDGEID
    sortByAngle live

/-- The first phase of `MergeSegregatedRoads` in isolation: the attempted
merge of the u-turn entry with its circular neighbours, paired with the
`merged_first` flag.  Definitionally equal to the corresponding part of
`MergeSegregatedRoads`. -/
def afterFirstPair (env : Env) (node : NodeID) (xs : Intersection) :
    Intersection × Bool :=
  if CanMerge env node xs 0 (xs.length - 1) then
    ((setAt (mapIdxFrom
      (fun i r => if 1 ≤ i ∧ i + 1 < xs.length then
        { r with angle := r.angle + (360 - (nth xs (xs.length - 1)).angle) / 2 }
        else r) 0 xs) 0
      { mergeRoads (nth xs 0) (nth xs (xs.length - 1)) with angle := 0 }).dropLast, true)
  else if CanMerge env node xs 0 1 then
    ((setAt (mapIdxFrom
      (fun i r => if 2 ≤ i then { r with angle := r.angle - (nth xs 1).angle / 2 }
        else r) 0 xs) 0
      { mergeRoads (nth xs 0) (nth xs 1) with angle := 0 }).eraseIdx 1, true)
  else (xs, false)

/-- The second phase of `MergeSegregatedRoads` in isolation: the roundabout
fix-up of the merged u-turn entry. -/
def afterRoundabout (env : Env) (node : NodeID) (xs : Intersection) : Intersection :=
  if (afterFirstPair env node xs).2 ∧
      xs.any (fun road => (env.edgeData road.eid).roundabout) then
    setAt (afterFirstPair env node xs).1 0
      { nth (afterFirstPair env node xs).1 0 with entry_allowed := false }
  else (afterFirstPair env node xs).1

/-! ### AdjustForJoiningRoads -/

/-- Half the angular deviation of two downstream roads (`get_offset`). -/
def getOffset (lhs rhs : ConnectedRoad) : ℚ :=
  1 / 2 * angularDeviation lhs.angle rhs.angle

/-- `get_corrected_offset`: clamp an offset to half the angular distance to
the next turn in the offset direction when it would come too close. -/
def getCorrectedOffset (env : Env) (offset : ℚ) (road nextRoadInOffsetDirection :
    ConnectedRoad) : ℚ :=
  let offsetLimit := angularDeviation road.angle nextRoadInOffsetDirection.angle
  if offset + env.maximalAllowedNoTurnDeviation > offsetLimit then 1 / 2 * offsetLimit
  else offset

/-- One step of `AdjustForJoiningRoads` for the road at `index`. -/
def adjustStep (env : Env) (nodeAtIntersection : NodeID) (l : Intersection) (index : Nat) :
    Intersection :=
  let road := nth l index
  let nextIntersectionAlongRoad := GetConnectedRoads env nodeAtIntersection road.eid
  if nextIntersectionAlongRoad.length ≤ 1 then l
  else
    let nodeAtNextIntersection := env.target road.eid
    if env.haversineDistance (env.nodeCoord nodeAtIntersection)
        (env.nodeCoord nodeAtNextIntersection) > 30 then l
    else if (env.adjacentEdges nodeAtNextIntersection).length ≤ 1 then l
    else if CanMerge env nodeAtNextIntersection nextIntersectionAlongRoad 0 1 then
      let offset := getOffset (nth nextIntersectionAlongRoad 0)
        (nth nextIntersectionAlongRoad 1)
      let correctedOffset := getCorrectedOffset env offset road
        (nth l ((index + 1) % l.length))
      setAt l index { road with
        angle := adjustAngle road.angle correctedOffset
        bearing := adjustAngle road.bearing correctedOffset }
    else if CanMerge env nodeAtNextIntersection nextIntersectionAlongRoad 0
        (nextIntersectionAlongRoad.length - 1) then
      let offset := getOffset (nth nextIntersectionAlongRoad 0)
        (nth nextIntersectionAlongRoad (nextIntersectionAlongRoad.length - 1))
      let correctedOffset := getCorrectedOffset env offset road (nth l (index - 1))
      setAt l index { road with
        angle := adjustAngle road.angle (-correctedOffset)
        bearing := adjustAngle road.bearing (-correctedOffset) }
    else l

theorem adjustStep_length (env : Env) (nodeAtIntersection : NodeID) (l : Intersection)
    (index : Nat) : (adjustStep env nodeAtIntersection l index).length = l.length := by
  unfold adjustStep
  dsimp only
  split_ifs <;> simp [setAt_length]

/-- `IntersectionGenerator::AdjustForJoiningRoads`: run the adjustment step
over the indices from 1 upward (each step preserves the length, so the loop
bound can be fixed up front). -/
def AdjustForJoiningRoads (env : Env) (nodeAtIntersection : NodeID)
    (intersection : Intersection) : Intersection :=
  if intersection.length ≤ 1 then intersection
  else (List.range' 1 (intersection.length - 1)).foldl
    (adjustStep env nodeAtIntersection) intersection

/-- `IntersectionGenerator::operator()`: the full pipeline. -/
def intersectionAt (env : Env) (frm : NodeID) (viaEid : EdgeID) : Intersection :=
  let nodeAtIntersection := env.target viaEid
  AdjustForJoiningRoads env nodeAtIntersection
    (MergeSegregatedRoads env nodeAtIntersection (GetConnectedRoads env frm viaEid))

/-- Well-formedness of an environment, reflecting the contracts of the
external collaborators: the geometric primitives return angles and bearings
in `[0, 360)`, and the adjacency ranges never hand out the sentinel edge. -/
def WF (env : Env) : Prop :=
  (∀ c1 c2 c3, 0 ≤ env.computeAngle c1 c2 c3 ∧ env.computeAngle c1 c2 c3 < 360) ∧
  (∀ c1 c2, 0 ≤ env.bearing c1 c2 ∧ env.bearing c1 c2 < 360) ∧
  (∀ n, SPECIAL_EDGEID ∉ env.adjacentEdges n)

/-! ### Rational helpers -/

theorem qabs_eq_abs (a : ℚ) : qabs a = |a| := by
  unfold qabs
  split_ifs with h
  · exact (abs_of_neg h).symm
  · exact (abs_of_nonneg (not_lt.mp h)).symm

theorem qabs_nonneg (a : ℚ) : 0 ≤ qabs a := by
  rw [qabs_eq_abs]; exact abs_nonneg a

theorem qmin_eq_min (a b : ℚ) : qmin a b = min a b := (min_def a b).symm

theorem ratFloor_eq_floor (q : ℚ) : (q.floor : ℤ) = ⌊q⌋ := by
  rw [Rat.floor_def', Rat.floor_def]

theorem qmod360_eq (d : ℚ) : qmod360 d = 360 * Int.fract (d / 360) := by
  unfold qmod360
  rw [ratFloor_eq_floor, Int.fract]
  ring

theorem qmod360_nonneg (d : ℚ) : 0 ≤ qmod360 d := by
  rw [qmod360_eq]
  have := Int.fract_nonneg (α := ℚ) (d / 360)
  linarith

theorem qmod360_lt (d : ℚ) : qmod360 d < 360 := by
  rw [qmod360_eq]
  have := Int.fract_lt_one (α := ℚ) (d / 360)
  linarith

theorem qmod360_eq_self {d : ℚ} (h0 : 0 ≤ d) (h1 : d < 360) : qmod360 d = d := by
  unfold qmod360
  have hfl : ⌊d / 360⌋ = 0 := by
    rw [Int.floor_eq_iff]
    push_cast
    constructor
    · positivity
    · linarith
  rw [ratFloor_eq_floor, hfl]
  push_cast
  ring

theorem qmod360_eq_sub {d : ℚ} (h0 : 360 ≤ d) (h1 : d < 720) : qmod360 d = d - 360 := by
  unfold qmod360
  have hfl : ⌊d / 360⌋ = 1 := by
    rw [Int.floor_eq_iff]
    push_cast
    constructor <;> linarith
  rw [ratFloor_eq_floor, hfl]
  push_cast
  ring

/-! ### angularDeviation -/

theorem angularDeviation_nonneg (a b : ℚ) : 0 ≤ angularDeviation a b := by
  unfold angularDeviation qmin
  dsimp only
  split_ifs with h
  · exact qmod360_nonneg _
  · have := qmod360_lt (qabs (a - b))
    linarith

theorem angularDeviation_le_180 (a b : ℚ) : angularDeviation a b ≤ 180 := by
  unfold angularDeviation qmin
  dsimp only
  split_ifs with h
  · linarith
  · push_neg at h
    linarith

theorem angularDeviation_of_abs_le {x y : ℚ} (h : |x - y| ≤ 180) :
    angularDeviation x y = |x - y| := by
  unfold angularDeviation
  rw [qabs_eq_abs, qmod360_eq_self (abs_nonneg _) (by linarith), qmin_eq_min]
  rw [min_eq_left (by linarith)]

theorem angularDeviation_of_abs_gt {x y : ℚ} (h1 : 180 < |x - y|) (h2 : |x - y| < 360) :
    angularDeviation x y = 360 - |x - y| := by
  unfold angularDeviation
  rw [qabs_eq_abs, qmod360_eq_self (abs_nonneg _) h2, qmin_eq_min]
  rw [min_eq_right (by linarith)]

/-! ### angleBetween -/

theorem angleBetween_mem {a b : ℚ} (ha0 : 0 ≤ a) (ha : a < 360) (hb0 : 0 ≤ b)
    (hb : b < 360) : 0 ≤ angleBetween a b ∧ angleBetween a b < 360 := by
  unfold angleBetween
  split_ifs with h
  · constructor <;> linarith
  · exact ⟨qmod360_nonneg _, qmod360_lt _⟩

/-- The merged angle is the angular midpoint: it is at half the angular
deviation from each of the two inputs. -/
theorem angleBetween_halves {a b : ℚ} (ha0 : 0 ≤ a) (ha : a < 360) (hb0 : 0 ≤ b)
    (hb : b < 360) :
    angularDeviation (angleBetween a b) a = angularDeviation a b / 2 ∧
    angularDeviation (angleBetween a b) b = angularDeviation a b / 2 := by
  unfold angleBetween
  split_ifs with h
  · rw [qabs_eq_abs] at h
    rw [angularDeviation_of_abs_le h]
    rcases abs_cases (a - b) with ⟨he, hs⟩ | ⟨he, hs⟩
    · rw [he] at h ⊢
      constructor
      · rw [angularDeviation_of_abs_le (by rw [abs_le]; constructor <;> linarith)]
        rw [abs_of_nonpos (by linarith : (a + b) / 2 - a ≤ 0)]
        linarith
      · rw [angularDeviation_of_abs_le (by rw [abs_le]; constructor <;> linarith)]
        rw [abs_of_nonneg (by linarith : (0:ℚ) ≤ (a + b) / 2 - b)]
        linarith
    · rw [he] at h ⊢
      constructor
      · rw [angularDeviation_of_abs_le (by rw [abs_le]; constructor <;> linarith)]
        rw [abs_of_nonneg (by linarith : (0:ℚ) ≤ (a + b) / 2 - a)]
        linarith
      · rw [angularDeviation_of_abs_le (by rw [abs_le]; constructor <;> linarith)]
        rw [abs_of_nonpos (by linarith : (a + b) / 2 - b ≤ 0)]
        linarith
  · rw [qabs_eq_abs, not_le] at h
    have habs : |a - b| < 360 := by
      rw [abs_lt]; constructor <;> linarith
    rw [angularDeviation_of_abs_gt h habs]
    rcases abs_cases (a - b) with ⟨he, hs⟩ | ⟨he, hs⟩
    · -- a ≥ b, a - b > 180
      rw [he] at h habs
      by_cases hm : (a + b) / 2 + 180 < 360
      · rw [qmod360_eq_self (by linarith) hm]
        constructor
        · rw [angularDeviation_of_abs_le
            (by rw [abs_le]; constructor <;> linarith)]
          rw [abs_of_nonneg (by linarith : (0:ℚ) ≤ (a + b) / 2 + 180 - a)]
          linarith
        · rw [angularDeviation_of_abs_gt
            (by rw [abs_of_nonneg (by linarith)]; linarith)
            (by rw [abs_of_nonneg (by linarith)]; linarith)]
          rw [abs_of_nonneg (by linarith : (0:ℚ) ≤ (a + b) / 2 + 180 - b)]
          linarith
      · push_neg at hm
        rw [qmod360_eq_sub hm (by linarith)]
        constructor
        · rw [angularDeviation_of_abs_gt
            (by rw [abs_of_nonpos (by linarith)]; linarith)
            (by rw [abs_of_nonpos (by linarith)]; linarith)]
          rw [abs_of_nonpos (by linarith : (a + b) / 2 + 180 - 360 - a ≤ 0)]
          linarith
        · rw [angularDeviation_of_abs_le
            (by rw [abs_le]; constructor <;> linarith)]
          rw [abs_of_nonpos (by linarith : (a + b) / 2 + 180 - 360 - b ≤ 0)]
          linarith
    · -- b > a, b - a > 180
      rw [he] at h habs
      by_cases hm : (a + b) / 2 + 180 < 360
      · rw [qmod360_eq_self (by linarith) hm]
        constructor
        · rw [angularDeviation_of_abs_gt
            (by rw [abs_of_nonneg (by linarith)]; linarith)
            (by rw [abs_of_nonneg (by linarith)]; linarith)]
          rw [abs_of_nonneg (by linarith : (0:ℚ) ≤ (a + b) / 2 + 180 - a)]
          linarith
        · rw [angularDeviation_of_abs_le
            (by rw [abs_le]; constructor <;> linarith)]
          rw [abs_of_nonneg (by linarith : (0:ℚ) ≤ (a + b) / 2 + 180 - b)]
          linarith
      · push_neg at hm
        rw [qmod360_eq_sub hm (by linarith)]
        constructor
        · rw [angularDeviation_of_abs_le
            (by rw [abs_le]; constructor <;> linarith)]
          rw [abs_of_nonpos (by linarith : (a + b) / 2 + 180 - 360 - a ≤ 0)]
          linarith
        · rw [angularDeviation_of_abs_gt
            (by rw [abs_of_nonpos (by linarith)]; linarith)
            (by rw [abs_of_nonpos (by linarith)]; linarith)]
          rw [abs_of_nonpos (by linarith : (a + b) / 2 + 180 - 360 - b ≤ 0)]
          linarith

/-! ### List-surgery lemmas -/

theorem nth_nil (i : Nat) : nth [] i = default := by cases i <;> rfl

theorem nth_cons_zero (r : ConnectedRoad) (rs : Intersection) : nth (r :: rs) 0 = r := rfl

theorem nth_cons_succ (r : ConnectedRoad) (rs : Intersection) (i : Nat) :
    nth (r :: rs) (i + 1) = nth rs i := rfl

theorem setAt_nil (i : Nat) (v : ConnectedRoad) : setAt [] i v = [] := rfl

theorem nth_setAt_self {l : Intersection} {i : Nat} (h : i < l.length) (v : ConnectedRoad) :
    nth (setAt l i v) i = v := by
  induction l generalizing i with
  | nil => simp at h
  | cons r rs ih =>
    cases i with
    | zero => rfl
    | succ j =>
      rw [setAt, nth_cons_succ]
      exact ih (by simpa using h)

theorem nth_setAt_ne (l : Intersection) {i j : Nat} (h : j ≠ i) (v : ConnectedRoad) :
    nth (setAt l i v) j = nth l j := by
  induction l generalizing i j with
  | nil => simp [setAt_nil]
  | cons r rs ih =>
    cases i with
    | zero =>
      cases j with
      | zero => exact absurd rfl h
      | succ j' => rfl
    | succ i' =>
      cases j with
      | zero => rfl
      | succ j' =>
        rw [setAt, nth_cons_succ, nth_cons_succ]
        exact ih (by omega)

theorem mem_setAt {l : Intersection} {i : Nat} {v r : ConnectedRoad}
    (h : r ∈ setAt l i v) : r = v ∨ r ∈ l := by
  induction l generalizing i with
  | nil => simp [setAt_nil] at h
  | cons x rs ih =>
    cases i with
    | zero =>
      rcases List.mem_cons.mp h with h' | h'
      · exact Or.inl h'
      · exact Or.inr (List.mem_cons_of_mem _ h')
    | succ i' =>
      rcases List.mem_cons.mp h with h' | h'
      · exact Or.inr (h' ▸ List.mem_cons_self _ _)
      · rcases ih h' with h'' | h''
        · exact Or.inl h''
        · exact Or.inr (List.mem_cons_of_mem _ h'')

/-! ### Concrete environments used to exercise the pipeline -/

/-- A default road classification. -/
def defaultClass : RoadClassification := ⟨0, 1⟩

/-- Default edge data: forward, car mode, no roundabout, anonymous name. -/
def dfltData : EdgeData :=
  { reversed := false, travel_mode := 0, roundabout := false, name_id := 0,
    road_classification := defaultClass }

/-- A baseline environment: empty graph, trivial collaborators, geometric
oracles returning constants, parallelism accepted with 8 samples. -/
def baseEnv : Env :=
  { adjacentEdges := fun _ => []
    target := fun _ => 0
    edgeData := fun _ => dfltData
    findEdge := fun _ _ => SPECIAL_EDGEID
    checkForEmanatingIsOnlyTurn := fun _ _ => SPECIAL_NODEID
    checkIfTurnIsRestricted := fun _ _ _ => false
    barrierNodes := fun _ => false
    nodeCoord := fun n => ⟨n, 0⟩
    coordinateAlongRoad := fun _ e invert _ _ => ⟨e, if invert then 1 else 2⟩
    computeAngle := fun _ _ _ => 0
    bearing := fun _ _ => 0
    haversineDistance := fun _ _ => 0
    coordinatesAlongWay := fun _ _ _ => List.replicate 8 ⟨0, 0⟩
    sampleCoordinates := fun l _ _ => l
    areParallel := fun _ _ _ => true
    sqrtVal := fun _ => 1
    maximalAllowedNoTurnDeviation := 2
    requiresNameAnnounced := fun _ _ => false
    laneCountAtIntersection := fun _ => 1 }

/-- A dead-end street: node 0 is entered over edge 10 from node 1 and its
only adjacent edge 20 leads straight back. -/
def envDeadEnd : Env :=
  { baseEnv with
    adjacentEdges := fun n => if n = 0 then [20] else []
    target := fun e => if e = 10 then 0 else if e = 20 then 1 else 0 }

/-- Segregated carriageways at node 0 whose merge makes two previously
non-adjacent entries adjacent: entries at 30° and 40° merge on the first
pass, leaving the 50° entry next to the merged 35° entry, with the pair
still mergeable. -/
def envTwoPass : Env :=
  { baseEnv with
    adjacentEdges := fun n => if n = 0 then [20, 21, 22, 23] else []
    target := fun e =>
      if e = 10 then 0 else if e = 20 then 1 else if e = 21 then 2
      else if e = 22 then 3 else if e = 23 then 4 else 0
    edgeData := fun e =>
      if e = 20 then { dfltData with reversed := true }
      else if e = 21 then { dfltData with name_id := 5 }
      else if e = 22 then { dfltData with name_id := 5, reversed := true }
      else if e = 23 then { dfltData with name_id := 5, reversed := true }
      else dfltData
    computeAngle := fun _ _ c3 =>
      if c3.lat = 21 then 30 else if c3.lat = 22 then 40 else if c3.lat = 23 then 50
      else 0 }

/-- Two mergeable entries neither of which is `entry_allowed`: one blocked by
a turn restriction and one a reversed carriageway. -/
def envNeitherAllowed : Env :=
  { baseEnv with
    adjacentEdges := fun n => if n = 0 then [20, 21, 22] else []
    target := fun e =>
      if e = 10 then 0 else if e = 20 then 1 else if e = 21 then 2
      else if e = 22 then 3 else 0
    edgeData := fun e =>
      if e = 20 then { dfltData with reversed := true }
      else if e = 21 then { dfltData with name_id := 5 }
      else if e = 22 then { dfltData with name_id := 5, reversed := true }
      else dfltData
    checkIfTurnIsRestricted := fun a b c => a = 1 ∧ b = 0 ∧ c = 2
    computeAngle := fun _ _ c3 =>
      if c3.lat = 21 then 30 else if c3.lat = 22 then 40 else 0 }

/-- A road at bearing 340° whose downstream intersection admits a right-side
u-turn merge with a 40° gap: the joining adjustment shifts its bearing by
exactly 20°, to exactly 360. -/
def envWrapBearing : Env :=
  { baseEnv with
    adjacentEdges := fun n => if n = 0 then [20, 21] else if n = 2 then [30, 31, 32]
      else []
    target := fun e =>
      if e = 10 then 0 else if e = 20 then 1 else if e = 21 then 2
      else if e = 30 then 0 else if e = 31 then 3 else if e = 32 then 4 else 0
    edgeData := fun e =>
      if e = 20 then { dfltData with reversed := true }
      else if e = 30 then { dfltData with name_id := 7, reversed := true }
      else if e = 31 then { dfltData with name_id := 7 }
      else dfltData
    computeAngle := fun _ _ c3 =>
      if c3.lat = 21 then 100 else if c3.lat = 31 then 40 else if c3.lat = 32 then 200
      else 0
    bearing := fun _ c => if c.lat = 21 ∧ c.lon = 2 then 340 else 0 }

/-- A u-turn slot with a strictly positive sub-epsilon angle together with a
road within that sub-epsilon gap of 360°: the joining adjustment wraps the
big angle across 360, breaking the sort order of the returned intersection. -/
def envWrapAngle : Env :=
  { baseEnv with
    adjacentEdges := fun n => if n = 0 then [20, 21] else if n = 3 then [30, 31, 32]
      else []
    target := fun e =>
      if e = 10 then 0 else if e = 20 then 2 else if e = 21 then 3
      else if e = 30 then 0 else if e = 31 then 4 else if e = 32 then 5 else 0
    edgeData := fun e =>
      if e = 30 then { dfltData with name_id := 7, reversed := true }
      else if e = 31 then { dfltData with name_id := 7 }
      else dfltData
    computeAngle := fun _ _ c3 =>
      if c3.lat = 20 then 1 / 2 ^ 53
      else if c3.lat = 21 then 360 - 1 / 2 ^ 54
      else if c3.lat = 31 then 40 else if c3.lat = 32 then 200 else 0 }

/-- No edge at node 0 leads back to the arrival origin, but the single
adjacent edge has angle 0 (below machine epsilon), so no synthetic u-turn is
appended. -/
def envNoUturn : Env :=
  { baseEnv with
    adjacentEdges := fun n => if n = 0 then [20] else []
    target := fun e => if e = 10 then 0 else if e = 20 then 5 else 0 }

/-- No edge at node 0 leads back to the arrival origin and the single
adjacent edge has angle 30°, so the synthetic u-turn is appended. -/
def envSynthetic : Env :=
  { baseEnv with
    adjacentEdges := fun n => if n = 0 then [20] else []
    target := fun e => if e = 10 then 0 else if e = 20 then 5 else 0
    computeAngle := fun _ _ c3 => if c3.lat = 20 then 30 else 0 }

/-- An environment with a dangling only-turn restriction: turns from node 1
over node 0 are required to continue to node 9, which is not adjacent. -/
def envDangling : Env :=
  { baseEnv with
    adjacentEdges := fun n => if n = 0 then [20, 21] else []
    target := fun e =>
      if e = 10 then 0 else if e = 20 then 1 else if e = 21 then 2 else 0
    checkForEmanatingIsOnlyTurn := fun a b => if a = 1 ∧ b = 0 then 9 else SPECIAL_NODEID
    computeAngle := fun _ _ c3 => if c3.lat = 21 then 90 else 0 }

theorem wf_baseEnv : WF baseEnv := by
  refine ⟨fun c1 c2 c3 => ?_, fun c1 c2 => ?_, fun n => ?_⟩
  · simp only [baseEnv, baseEnv]
    first
    | (split_ifs <;> norm_num)
    | norm_num
  · simp only [baseEnv, baseEnv]
    first
    | (split_ifs <;> norm_num)
    | norm_num
  · simp only [baseEnv, baseEnv]
    first
    | (split_ifs <;> simp [SPECIAL_EDGEID])
    | simp [SPECIAL_EDGEID]

theorem wf_envDeadEnd : WF envDeadEnd := by
  refine ⟨fun c1 c2 c3 => ?_, fun c1 c2 => ?_, fun n => ?_⟩
  · simp only [envDeadEnd, baseEnv]
    first
    | (split_ifs <;> norm_num)
    | norm_num
  · simp only [envDeadEnd, baseEnv]
    first
    | (split_ifs <;> norm_num)
    | norm_num
  · simp only [envDeadEnd, baseEnv]
    first
    | (split_ifs <;> simp [SPECIAL_EDGEID])
    | simp [SPECIAL_EDGEID]

theorem wf_envTwoPass : WF envTwoPass := by
  refine ⟨fun c1 c2 c3 => ?_, fun c1 c2 => ?_, fun n => ?_⟩
  · simp only [envTwoPass, baseEnv]
    first
    | (split_ifs <;> norm_num)
    | norm_num
  · simp only [envTwoPass, baseEnv]
    first
    | (split_ifs <;> norm_num)
    | norm_num
  · simp only [envTwoPass, baseEnv]
    first
    | (split_ifs <;> simp [SPECIAL_EDGEID])
    | simp [SPECIAL_EDGEID]

theorem wf_envNeitherAllowed : WF envNeitherAllowed := by
  refine ⟨fun c1 c2 c3 => ?_, fun c1 c2 => ?_, fun n => ?_⟩
  · simp only [envNeitherAllowed, baseEnv]
    first
    | (split_ifs <;> norm_num)
    | norm_num
  · simp only [envNeitherAllowed, baseEnv]
    first
    | (split_ifs <;> norm_num)
    | norm_num
  · simp only [envNeitherAllowed, baseEnv]
    first
    | (split_ifs <;> simp [SPECIAL_EDGEID])
    | simp [SPECIAL_EDGEID]

theorem wf_envWrapBearing : WF envWrapBearing := by
  refine ⟨fun c1 c2 c3 => ?_, fun c1 c2 => ?_, fun n => ?_⟩
  · simp only [envWrapBearing, baseEnv]
    first
    | (split_ifs <;> norm_num)
    | norm_num
  · simp only [envWrapBearing, baseEnv]
    first
    | (split_ifs <;> norm_num)
    | norm_num
  · simp only [envWrapBearing, baseEnv]
    first
    | (split_ifs <;> simp [SPECIAL_EDGEID])
    | simp [SPECIAL_EDGEID]

theorem wf_envWrapAngle : WF envWrapAngle := by
  refine ⟨fun c1 c2 c3 => ?_, fun c1 c2 => ?_, fun n => ?_⟩
  · simp only [envWrapAngle, baseEnv]
    first
    | (split_ifs <;> norm_num)
    | norm_num
  · simp only [envWrapAngle, baseEnv]
    first
    | (split_ifs <;> norm_num)
    | norm_num
  · simp only [envWrapAngle, baseEnv]
    first
    | (split_ifs <;> simp [SPECIAL_EDGEID])
    | simp [SPECIAL_EDGEID]

theorem wf_envNoUturn : WF envNoUturn := by
  refine ⟨fun c1 c2 c3 => ?_, fun c1 c2 => ?_, fun n => ?_⟩
  · simp only [envNoUturn, baseEnv]
    first
    | (split_ifs <;> norm_num)
    | norm_num
  · simp only [envNoUturn, baseEnv]
    first
    | (split_ifs <;> norm_num)
    | norm_num
  · simp only [envNoUturn, baseEnv]
    first
    | (split_ifs <;> simp [SPECIAL_EDGEID])
    | simp [SPECIAL_EDGEID]

theorem wf_envSynthetic : WF envSynthetic := by
  refine ⟨fun c1 c2 c3 => ?_, fun c1 c2 => ?_, fun n => ?_⟩
  · simp only [envSynthetic, baseEnv]
    first
    | (split_ifs <;> norm_num)
    | norm_num
  · simp only [envSynthetic, baseEnv]
    first
    | (split_ifs <;> norm_num)
    | norm_num
  · simp only [envSynthetic, baseEnv]
    first
    | (split_ifs <;> simp [SPECIAL_EDGEID])
    | simp [SPECIAL_EDGEID]

/-- An environment equal to `env` except that the only-turn restriction
emanating from `(a, b)` is absent. -/
def clearOnlyTurn (env : Env) (a b : NodeID) : Env :=
  { env with checkForEmanatingIsOnlyTurn := fun x y =>
      if x = a ∧ y = b then SPECIAL_NODEID else env.checkForEmanatingIsOnlyTurn x y }

theorem wf_envDangling : WF envDangling := by
  refine ⟨fun c1 c2 c3 => ?_, fun c1 c2 => ?_, fun n => ?_⟩
  · simp only [envDangling, baseEnv]
    first
    | (split_ifs <;> norm_num)
    | norm_num
  · simp only [envDangling, baseEnv]
    first
    | (split_ifs <;> norm_num)
    | norm_num
  · simp only [envDangling, baseEnv]
    first
    | (split_ifs <;> simp [SPECIAL_EDGEID])
    | simp [SPECIAL_EDGEID]


theorem map_setAt {l : Intersection} {i : Nat} {v : ConnectedRoad}
    {β : Type} (f : ConnectedRoad → β) (h : f v = f (nth l i)) :
    (setAt l i v).map f = l.map f := by
  induction l generalizing i with
  | nil => simp [setAt_nil]
  | cons r rs ih =>
    cases i with
    | zero => simp_all [setAt, nth_cons_zero]
    | succ i' =>
      rw [setAt, List.map, List.map, ih (by simpa [nth_cons_succ] using h)]

theorem setAt_tail {l : Intersection} {i : Nat} {v : ConnectedRoad} (h : 1 ≤ i) :
    setAt l i v = l.head?.toList ++ setAt l.tail (i - 1) v := by
  cases l with
  | nil => simp [setAt_nil]
  | cons r rs =>
    cases i with
    | zero => omega
    | succ i' => simp [setAt]

theorem setAt_oob {l : Intersection} {i : Nat} (h : l.length ≤ i) (v : ConnectedRoad) :
    setAt l i v = l := by
  induction l generalizing i with
  | nil => rfl
  | cons r rs ih =>
    cases i with
    | zero => simp at h
    | succ i' => simp [setAt, ih (by simpa using h)]

/-! ### Sorting lemmas -/

theorem sortByAngle_sorted (l : Intersection) : List.Sorted byAngle (sortByAngle l) :=
  List.sorted_insertionSort byAngle l

theorem sortByAngle_perm (l : Intersection) : List.Perm (sortByAngle l) l :=
  List.perm_insertionSort byAngle l

theorem mem_sortByAngle {l : Intersection} {r : ConnectedRoad} :
    r ∈ sortByAngle l ↔ r ∈ l := List.mem_insertionSort byAngle

theorem sortByAngle_length (l : Intersection) : (sortByAngle l).length = l.length :=
  List.length_insertionSort byAngle l

theorem sortByAngle_eq_of_sorted {l : Intersection} (h : List.Sorted byAngle l) :
    sortByAngle l = l := h.insertionSort_eq

theorem sortByAngle_cons_min {x : ConnectedRoad} {l : Intersection}
    (h : ∀ b ∈ l, x.angle ≤ b.angle) : sortByAngle (x :: l) = x :: sortByAngle l := by
  unfold sortByAngle
  apply List.insertionSort_cons
  exact h

theorem sorted_head_le {l : Intersection} (hs : List.Sorted byAngle l)
    {r : ConnectedRoad} (hr : r ∈ l) : (nth l 0).angle ≤ r.angle := by
  cases l with
  | nil => simp at hr
  | cons x t =>
    rcases List.mem_cons.mp hr with rfl | hr'
    · exact le_refl _
    · exact (List.sorted_cons.mp hs).1 r hr'

theorem sortByAngle_strict_min {l : Intersection} {x : ConnectedRoad} (hx : x ∈ l)
    (hmin : ∀ y ∈ l, y = x ∨ x.angle < y.angle) :
    ∃ t, sortByAngle l = x :: t ∧ ∀ r ∈ t, r ∈ l := by
  have hperm := sortByAngle_perm l
  have hsorted := sortByAngle_sorted l
  have hxmem : x ∈ sortByAngle l := mem_sortByAngle.mpr hx
  cases hsl : sortByAngle l with
  | nil => rw [hsl] at hxmem; simp at hxmem
  | cons h t =>
    rw [hsl] at hxmem hperm hsorted
    have hhl : h ∈ l := hperm.mem_iff.mp (List.mem_cons_self _ _)
    rcases hmin h hhl with rfl | hlt
    · exact ⟨t, rfl, fun r hr => hperm.mem_iff.mp (List.mem_cons_of_mem _ hr)⟩
    · exfalso
      rcases List.mem_cons.mp hxmem with rfl | hxt
      · exact lt_irrefl _ hlt
      · have := (List.sorted_cons.mp hsorted).1 x hxt
        exact absurd (lt_of_lt_of_le hlt this) (lt_irrefl _)

/-! ### Claim C8: dangling only-turn restrictions are ignored -/

/-- C8: an only-turn restriction emanating from `(from_node, turn_node)` is
honoured only when its mandatory target is the target of some edge adjacent
to `turn_node`; when the target is not among the neighbours, the resolved
restriction is absent and the returned intersection is exactly the one
computed in an environment without that restriction, so every
otherwise-legal turn remains allowed. -/
theorem C8_dangling_only_restriction (env : Env) (frm viaEid : Nat)
    (h : ∀ e ∈ env.adjacentEdges (env.target viaEid),
      env.target e ≠ env.checkForEmanatingIsOnlyTurn frm (env.target viaEid)) :
    onlyRestrictionToNode env frm (env.target viaEid) = SPECIAL_NODEID ∧
    GetConnectedRoads env frm viaEid =
      GetConnectedRoads (clearOnlyTurn env frm (env.target viaEid)) frm viaEid := by
  have honly : onlyRestrictionToNode env frm (env.target viaEid) = SPECIAL_NODEID := by
    unfold onlyRestrictionToNode
    dsimp only
    rw [if_neg]
    rintro ⟨hne, hany⟩
    obtain ⟨e, he, heq⟩ := List.any_eq_true.mp hany
    exact h e he (by simpa using heq)
  have hc : (clearOnlyTurn env frm (env.target viaEid)).checkForEmanatingIsOnlyTurn frm
      (env.target viaEid) = SPECIAL_NODEID := by
    unfold clearOnlyTurn
    dsimp only
    rw [if_pos ⟨rfl, rfl⟩]
  have honly' :
      onlyRestrictionToNode (clearOnlyTurn env frm (env.target viaEid)) frm
        (env.target viaEid) = SPECIAL_NODEID := by
    unfold onlyRestrictionToNode
    dsimp only
    rw [hc, if_neg]
    rintro ⟨hne, _⟩
    exact hne rfl
  refine ⟨honly, ?_⟩
  show applyDeadEndFlag env frm
      (uturnCouldBeValid env frm (env.target viaEid)
        (onlyRestrictionToNode env frm (env.target viaEid)))
      (sortedRaw env frm viaEid (onlyRestrictionToNode env frm (env.target viaEid))) = _
  rw [honly]
  show _ = applyDeadEndFlag (clearOnlyTurn env frm (env.target viaEid)) frm
      (uturnCouldBeValid (clearOnlyTurn env frm (env.target viaEid)) frm (env.target viaEid)
        (onlyRestrictionToNode (clearOnlyTurn env frm (env.target viaEid)) frm
          (env.target viaEid)))
      (sortedRaw (clearOnlyTurn env frm (env.target viaEid)) frm viaEid
        (onlyRestrictionToNode (clearOnlyTurn env frm (env.target viaEid)) frm
          (env.target viaEid)))
  rw [honly']
  rfl

/-- C8, witnessed on `envDangling`: the only-turn from `(1, 0)` names node 9,
which is not a neighbour of node 0, so it is ignored. -/
theorem C8_witness :
    onlyRestrictionToNode envDangling 1 (envDangling.target 10) = SPECIAL_NODEID ∧
    GetConnectedRoads envDangling 1 10 =
      GetConnectedRoads (clearOnlyTurn envDangling 1 (envDangling.target 10)) 1 10 :=
  C8_dangling_only_restriction envDangling 1 10 (by with_unfolding_all decide)

/-! ### Claim C9: frame conditions of the joining adjustment -/

/-- The skip conditions of `AdjustForJoiningRoads` for a road: its next
intersection has at most one road, or the downstream node is more than 30 m
away, or the downstream node's graph degree is at most one. -/
def joinSkip (env : Env) (node : NodeID) (eid : EdgeID) : Prop :=
  (GetConnectedRoads env node eid).length ≤ 1 ∨
  30 < env.haversineDistance (env.nodeCoord node) (env.nodeCoord (env.target eid)) ∨
  (env.adjacentEdges (env.target eid)).length ≤ 1

/-- Every field of a connected road other than its angle and bearing. -/
def frameFields (r : ConnectedRoad) : EdgeID × Nat × Nat × Nat × Bool :=
  (r.eid, r.instrType, r.instrModifier, r.laneData, r.entry_allowed)

theorem adjustStep_nth_ne (env : Env) (node : NodeID) (l : Intersection) {i j : Nat}
    (h : j ≠ i) : nth (adjustStep env node l i) j = nth l j := by
  unfold adjustStep
  dsimp only
  split_ifs <;> first | rfl | exact nth_setAt_ne _ h _

theorem adjustStep_frame (env : Env) (node : NodeID) (l : Intersection) (i : Nat) :
    (adjustStep env node l i).map frameFields = l.map frameFields := by
  unfold adjustStep
  dsimp only
  split_ifs <;> first | rfl | (exact map_setAt frameFields rfl)

theorem adjustStep_skip (env : Env) (node : NodeID) (l : Intersection) (i : Nat)
    (h : joinSkip env node (nth l i).eid) : adjustStep env node l i = l := by
  unfold adjustStep
  dsimp only
  split_ifs with h1 h2 h3 h4 h5 <;> try rfl
  all_goals
    rcases h with h | h | h
    · exact absurd h h1
    · exact absurd h (by simpa using h2)
    · exact absurd h h3

theorem foldlAdjust_map_frame (env : Env) (node : NodeID) (is : List Nat) :
    ∀ l : Intersection,
      (is.foldl (adjustStep env node) l).map frameFields = l.map frameFields := by
  induction is with
  | nil => intro l; rfl
  | cons i is ih =>
    intro l
    rw [List.foldl_cons, ih, adjustStep_frame]

theorem foldlAdjust_length (env : Env) (node : NodeID) (is : List Nat)
    (l : Intersection) : (is.foldl (adjustStep env node) l).length = l.length := by
  have := congrArg List.length (foldlAdjust_map_frame env node is l)
  simpa using this

theorem foldlAdjust_nth_notmem (env : Env) (node : NodeID) (is : List Nat) :
    ∀ l : Intersection, ∀ j, j ∉ is →
      nth (is.foldl (adjustStep env node) l) j = nth l j := by
  induction is with
  | nil => intro l j _; rfl
  | cons i is ih =>
    intro l j hj
    rw [List.foldl_cons, ih _ _ (fun hmem => hj (List.mem_cons_of_mem _ hmem)),
      adjustStep_nth_ne env node l
        (fun he => hj (by rw [he]; exact List.mem_cons_self _ _))]

theorem foldlAdjust_nth_skip (env : Env) (node : NodeID) (is : List Nat) :
    ∀ l : Intersection, ∀ j, joinSkip env node (nth l j).eid →
      nth (is.foldl (adjustStep env node) l) j = nth l j := by
  induction is with
  | nil => intro l j _; rfl
  | cons i is ih =>
    intro l j hskip
    rw [List.foldl_cons]
    by_cases hij : j = i
    · subst hij
      rw [adjustStep_skip env node l j hskip]
      exact ih l j hskip
    · have heq : nth (adjustStep env node l i) j = nth l j :=
        adjustStep_nth_ne env node l hij
      rw [ih _ j (by rw [heq]; exact hskip), heq]

/-- C9 (claim as stated, confirmed): `AdjustForJoiningRoads` never modifies
the slot-0 entry; all fields other than angle and bearing are unchanged in
every entry; and any road at index ≥ 1 whose next intersection has at most
one road, or whose downstream node is over 30 m away, or whose downstream
node has degree at most one, is left entirely unchanged. -/
theorem C9_joining_adjustment_frame (env : Env) (node : NodeID) (xs : Intersection) :
    nth (AdjustForJoiningRoads env node xs) 0 = nth xs 0 ∧
    (AdjustForJoiningRoads env node xs).map frameFields = xs.map frameFields ∧
    (∀ j, 1 ≤ j → joinSkip env node (nth xs j).eid →
      nth (AdjustForJoiningRoads env node xs) j = nth xs j) := by
  unfold AdjustForJoiningRoads
  split_ifs with hlen
  · exact ⟨rfl, rfl, fun _ _ _ => rfl⟩
  · refine ⟨?_, foldlAdjust_map_frame env node _ xs, fun j _ hskip =>
      foldlAdjust_nth_skip env node _ xs j hskip⟩
    apply foldlAdjust_nth_notmem
    intro hmem
    have := List.mem_range'_1.mp hmem
    omega

/-- A concrete sorted intersection used to witness the frame theorem. -/
def xsFrame : Intersection :=
  [⟨20, 0, 0, 0, 0, 0, true⟩, ⟨21, 50, 10, 0, 0, 0, false⟩]

/-- C9 witnessed: the skip conditions hold for the road at index 1 of
`xsFrame` under `envDeadEnd` (its downstream intersection has one road), so
the adjustment leaves the road unchanged. -/
theorem C9_witness :
    nth (AdjustForJoiningRoads envDeadEnd 0 xsFrame) 1 = nth xsFrame 1 :=
  (C9_joining_adjustment_frame envDeadEnd 0 xsFrame).2.2 1 (le_refl 1)
    (Or.inl (by with_unfolding_all decide))

/-! ### Structural lemmas about the raw and merged stages -/

theorem roadFor_eid (env : Env) (frm viaEid turnNode onlyTo : Nat) (lanes : Nat)
    (onto : EdgeID) : (roadFor env frm viaEid turnNode onlyTo lanes onto).eid = onto := by
  unfold roadFor
  dsimp only
  split_ifs <;> rfl

theorem applyDeadEndFlag_map_angle (env : Env) (frm : NodeID) (could : Bool)
    (l : Intersection) :
    (applyDeadEndFlag env frm could l).map (·.angle) = l.map (·.angle) := by
  unfold applyDeadEndFlag
  split_ifs
  · exact map_setAt _ rfl
  · rfl

theorem applyDeadEndFlag_map_eid (env : Env) (frm : NodeID) (could : Bool)
    (l : Intersection) :
    (applyDeadEndFlag env frm could l).map (·.eid) = l.map (·.eid) := by
  unfold applyDeadEndFlag
  split_ifs
  · exact map_setAt _ rfl
  · rfl

theorem applyDeadEndFlag_length (env : Env) (frm : NodeID) (could : Bool)
    (l : Intersection) : (applyDeadEndFlag env frm could l).length = l.length := by
  have := congrArg List.length (applyDeadEndFlag_map_eid env frm could l)
  simpa using this

theorem sorted_iff_map_angle (l : Intersection) :
    List.Sorted byAngle l ↔ List.Pairwise (· ≤ ·) (l.map (·.angle)) := by
  rw [List.pairwise_map]
  rfl

theorem GetConnectedRoads_sorted (env : Env) (frm viaEid : Nat) :
    List.Sorted byAngle (GetConnectedRoads env frm viaEid) := by
  unfold GetConnectedRoads
  dsimp only
  rw [sorted_iff_map_angle, applyDeadEndFlag_map_angle, ← sorted_iff_map_angle]
  exact sortByAngle_sorted _

theorem GetConnectedRoads_length (env : Env) (frm viaEid : Nat) :
    (GetConnectedRoads env frm viaEid).length =
      (withSynthetic env frm viaEid
        (onlyRestrictionToNode env frm (env.target viaEid))).length := by
  unfold GetConnectedRoads sortedRaw
  dsimp only
  rw [applyDeadEndFlag_length, sortByAngle_length]

theorem mem_map_eid_of_mem {l : Intersection} {r : ConnectedRoad} (h : r ∈ l) :
    r.eid ∈ l.map (·.eid) := List.mem_map_of_mem _ h

theorem GetConnectedRoads_eids (env : Env) (frm viaEid : Nat) :
    ∀ r ∈ GetConnectedRoads env frm viaEid,
      r.eid = viaEid ∨ r.eid ∈ env.adjacentEdges (env.target viaEid) := by
  intro r hr
  have hmem : r.eid ∈ (GetConnectedRoads env frm viaEid).map (·.eid) :=
    mem_map_eid_of_mem hr
  rw [show GetConnectedRoads env frm viaEid =
      applyDeadEndFlag env frm
        (uturnCouldBeValid env frm (env.target viaEid)
          (onlyRestrictionToNode env frm (env.target viaEid)))
        (sortedRaw env frm viaEid
          (onlyRestrictionToNode env frm (env.target viaEid))) from rfl,
    applyDeadEndFlag_map_eid] at hmem
  have hperm := (sortByAngle_perm (withSynthetic env frm viaEid
    (onlyRestrictionToNode env frm (env.target viaEid)))).map (·.eid)
  rw [show sortedRaw env frm viaEid
      (onlyRestrictionToNode env frm (env.target viaEid)) =
      sortByAngle (withSynthetic env frm viaEid
        (onlyRestrictionToNode env frm (env.target viaEid))) from rfl] at hmem
  have hmem2 := hperm.mem_iff.mp hmem
  unfold withSynthetic at hmem2
  dsimp only at hmem2
  split_ifs at hmem2 with hut
  · right
    unfold scannedRoads at hmem2
    dsimp only at hmem2
    rw [List.map_map] at hmem2
    obtain ⟨e, he, heq⟩ := List.mem_map.mp hmem2
    rw [← heq]
    simpa [Function.comp, roadFor_eid] using he
  · rw [List.map_append] at hmem2
    rcases List.mem_append.mp hmem2 with hm | hm
    · right
      unfold scannedRoads at hm
      dsimp only at hm
      rw [List.map_map] at hm
      obtain ⟨e, he, heq⟩ := List.mem_map.mp hm
      rw [← heq]
      simpa [Function.comp, roadFor_eid] using he
    · left
      simpa [syntheticUturn] using hm

theorem mapIdxFrom_length (f : Nat → ConnectedRoad → ConnectedRoad) :
    ∀ (i : Nat) (l : Intersection), (mapIdxFrom f i l).length = l.length := by
  intro i l
  induction l generalizing i with
  | nil => rfl
  | cons r rs ih => simpa [mapIdxFrom] using ih (i + 1)

theorem mergeSweepStep_length (env : Env) (node : NodeID) (l : Intersection)
    (i : Nat) : (mergeSweepStep env node l i).length = l.length := by
  unfold mergeSweepStep
  dsimp only
  split_ifs <;> simp [setAt_length]

theorem mergeSweep_foldl_length (env : Env) (node : NodeID) (is : List Nat) :
    ∀ l : Intersection, (is.foldl (mergeSweepStep env node) l).length = l.length := by
  induction is with
  | nil => intro l; rfl
  | cons i is ih =>
    intro l
    rw [List.foldl_cons, ih, mergeSweepStep_length]

theorem mergeSweep_length (env : Env) (node : NodeID) (l : Intersection) :
    (mergeSweep env node l).length = l.length :=
  mergeSweep_foldl_length env node _ l

theorem length_eraseIdx_le (l : Intersection) (i : Nat) :
    (l.eraseIdx i).length ≤ l.length := by
  induction l generalizing i with
  | nil => simp
  | cons r rs ih =>
    cases i with
    | zero => simp [List.eraseIdx]
    | succ i' =>
      simp only [List.eraseIdx, List.length_cons]
      exact Nat.succ_le_succ (ih i')

/-! ### Claim C5: size monotonicity of the segregated merge -/

/-- C5 (amended): the segregated merge never grows an intersection.  (The
second half of the original claim — that no remaining pair `(i, i-1)` with
`i ≥ 2` is still mergeable — fails; see the counterexample.) -/
theorem C5_amended_merge_size (env : Env) (node : NodeID) (xs : Intersection) :
    (MergeSegregatedRoads env node xs).length ≤ xs.length := by
  unfold MergeSegregatedRoads
  dsimp only
  split
  · exact le_refl _
  · rw [sortByAngle_length]
    refine le_trans (List.length_filter_le _ _) ?_
    rw [mergeSweep_length]
    repeat' split
    all_goals
      first
      | (simp only [setAt_length, List.length_dropLast, mapIdxFrom_length]; omega)
      | (simp only [setAt_length]
         refine le_trans (length_eraseIdx_le _ _) ?_
         simp only [setAt_length, mapIdxFrom_length]
         omega)

set_option maxRecDepth 10000

/-- C5 as stated is false: in `envTwoPass`, merging removes the 40° entry
between the 30° and 50° entries; in the merged result the remaining entries
at indices (2, 1) still satisfy `can_merge`, because the sweep never
re-examines a pair that became adjacent through a removal. -/
theorem C5_counterexample :
    ¬ (∀ env : Env, WF env → ∀ (node : NodeID) (xs : Intersection),
      (MergeSegregatedRoads env node xs).length ≤ xs.length ∧
      (∀ i, 2 ≤ i → i < (MergeSegregatedRoads env node xs).length →
        CanMerge env node (MergeSegregatedRoads env node xs) i (i - 1) = false)) := by
  intro h
  have h2 := (h envTwoPass wf_envTwoPass 0 (GetConnectedRoads envTwoPass 1 10)).2 2
    (le_refl 2) (by with_unfolding_all decide)
  have h3 : CanMerge envTwoPass 0
      (MergeSegregatedRoads envTwoPass 0 (GetConnectedRoads envTwoPass 1 10)) 2 1 = true := by
    with_unfolding_all decide
  rw [h2] at h3
  exact Bool.false_ne_true h3

/-- C2 as stated is false: applying the segregated merge a second time to
`envTwoPass`'s merged intersection merges further (the 50° entry folds into
the 35° entry produced by the first pass), dropping the size from 3 to 2. -/
theorem C2_counterexample :
    ¬ (∀ env : Env, WF env → ∀ frm viaEid : Nat,
      MergeSegregatedRoads env (env.target viaEid)
          (MergeSegregatedRoads env (env.target viaEid)
            (GetConnectedRoads env frm viaEid)) =
        MergeSegregatedRoads env (env.target viaEid)
          (GetConnectedRoads env frm viaEid)) := by
  intro h
  have hcontra := congrArg List.length (h envTwoPass wf_envTwoPass 1 10)
  have hA : (MergeSegregatedRoads envTwoPass (envTwoPass.target 10)
      (MergeSegregatedRoads envTwoPass (envTwoPass.target 10)
        (GetConnectedRoads envTwoPass 1 10))).length = 2 := by
    with_unfolding_all decide
  have hB : (MergeSegregatedRoads envTwoPass (envTwoPass.target 10)
      (GetConnectedRoads envTwoPass 1 10)).length = 3 := by
    with_unfolding_all decide
  rw [hA, hB] at hcontra
  norm_num at hcontra

/-- C6 as stated is false: when neither entry of a combined pair is
`entry_allowed`, the pairwise merge copies the second entry, not the first.
The instantiation uses exactly the two roads that the sweep combines in
`envNeitherAllowed`'s intersection. -/
theorem C6_counterexample :
    ¬ (∀ x y : ConnectedRoad,
        (mergeRoads x y).eid =
          (if x.entry_allowed then x else if y.entry_allowed then y else x).eid) := by
  intro h
  have hx := h (nth (GetConnectedRoads envNeitherAllowed 1 10) 1)
    (nth (GetConnectedRoads envNeitherAllowed 1 10) 2)
  have h1 : (mergeRoads (nth (GetConnectedRoads envNeitherAllowed 1 10) 1)
      (nth (GetConnectedRoads envNeitherAllowed 1 10) 2)).eid = 22 := by
    with_unfolding_all decide
  have h2 : (if (nth (GetConnectedRoads envNeitherAllowed 1 10) 1).entry_allowed then
        nth (GetConnectedRoads envNeitherAllowed 1 10) 1
      else if (nth (GetConnectedRoads envNeitherAllowed 1 10) 2).entry_allowed then
        nth (GetConnectedRoads envNeitherAllowed 1 10) 2
      else nth (GetConnectedRoads envNeitherAllowed 1 10) 1).eid = 21 := by
    with_unfolding_all decide
  rw [h1, h2] at hx
  norm_num at hx

/-- C3 as stated is false: in `envWrapBearing` the joining adjustment shifts
a bearing of 340° by exactly 20°, and `adjustAngle` returns exactly 360,
which is outside `[0, 360)`. -/
theorem C3_counterexample :
    ¬ (∀ env : Env, WF env → ∀ frm viaEid : Nat,
        (∀ r ∈ GetConnectedRoads env frm viaEid,
          (0 ≤ r.angle ∧ r.angle < 360) ∧ 0 ≤ r.bearing ∧ r.bearing < 360) ∧
        (∀ r ∈ MergeSegregatedRoads env (env.target viaEid)
            (GetConnectedRoads env frm viaEid),
          (0 ≤ r.angle ∧ r.angle < 360) ∧ 0 ≤ r.bearing ∧ r.bearing < 360) ∧
        (∀ r ∈ intersectionAt env frm viaEid,
          (0 ≤ r.angle ∧ r.angle < 360) ∧ 0 ≤ r.bearing ∧ r.bearing < 360)) := by
  intro h
  obtain ⟨r, hr, hbear⟩ : ∃ r ∈ intersectionAt envWrapBearing 1 10, r.bearing = 360 := by
    with_unfolding_all decide
  have h2 := ((h envWrapBearing wf_envWrapBearing 1 10).2.2 r hr).2.2
  rw [hbear] at h2
  norm_num at h2

/-- C1 as stated is false: in `envWrapAngle` the u-turn slot carries a
strictly positive sub-epsilon angle and the other road sits within that gap
of 360°, so the joining adjustment wraps the big angle across 360 and the
returned intersection is no longer sorted by angle. -/
theorem C1_counterexample :
    ¬ (∀ env : Env, WF env → ∀ frm viaEid : Nat,
        intersectionAt env frm viaEid ≠ [] ∧
        (nth (intersectionAt env frm viaEid) 0).angle < MACHINE_EPS ∧
        List.Sorted byAngle (intersectionAt env frm viaEid) ∧
        ∀ r ∈ (intersectionAt env frm viaEid).tail,
          r.eid ∈ env.adjacentEdges (env.target viaEid)) := by
  intro h
  exact absurd (h envWrapAngle wf_envWrapAngle 1 10).2.2.1 (by with_unfolding_all decide)

/-- C4 as stated is false: in `envDeadEnd` the u-turn at the dead end is
marked valid although node 0 emits exactly one bidirectional edge, not more
than one. -/
theorem C4_counterexample :
    ¬ (∀ env : Env, WF env → ∀ frm viaEid : Nat,
        ∀ r ∈ GetConnectedRoads env frm viaEid, env.target r.eid = frm →
          r.entry_allowed = true →
            env.barrierNodes (env.target viaEid) = false ∧
            1 < emittingBidirectionalEdges env (env.target viaEid)) := by
  intro h
  obtain ⟨r, hr, htgt, hallow⟩ : ∃ r ∈ GetConnectedRoads envDeadEnd 1 10,
      envDeadEnd.target r.eid = 1 ∧ r.entry_allowed = true := by
    with_unfolding_all decide
  have h2 := (h envDeadEnd wf_envDeadEnd 1 10 r hr htgt hallow).2
  have h3 : emittingBidirectionalEdges envDeadEnd (envDeadEnd.target 10) = 1 := by
    with_unfolding_all decide
  rw [h3] at h2
  norm_num at h2

/-- C7 as stated is false: in `envNoUturn` no adjacent edge of node 0 leads
back to the arrival origin, yet no synthetic u-turn is appended, because the
single adjacent edge's angle lies below machine epsilon. -/
theorem C7_counterexample :
    ¬ (∀ env : Env, WF env → ∀ frm viaEid : Nat,
        (∀ e ∈ env.adjacentEdges (env.target viaEid), env.target e ≠ frm) →
          (GetConnectedRoads env frm viaEid).length =
            (env.adjacentEdges (env.target viaEid)).length + 1 ∧
          ∃ r ∈ GetConnectedRoads env frm viaEid,
            r.eid = viaEid ∧ r.angle = 0 ∧ r.entry_allowed = false) := by
  intro h
  have h2 := (h envNoUturn wf_envNoUturn 1 10 (by with_unfolding_all decide)).1
  have h3 : (GetConnectedRoads envNoUturn 1 10).length = 1 := by
    with_unfolding_all decide
  have h4 : (envNoUturn.adjacentEdges (envNoUturn.target 10)).length = 1 := by
    with_unfolding_all decide
  rw [h3, h4] at h2
  norm_num at h2

/-! ### Claims C7 and C10: the synthetic u-turn -/

theorem uturnCouldBeValid_false (env : Env) (frm turnNode onlyTo : NodeID)
    (h : ∀ e ∈ env.adjacentEdges turnNode, env.target e ≠ frm) :
    uturnCouldBeValid env frm turnNode onlyTo = false := by
  unfold uturnCouldBeValid
  suffices hgen : ∀ l : List EdgeID, (∀ e ∈ l, env.target e ≠ frm) →
      l.foldl (fun acc onto =>
        if env.target onto = frm then baseTurnValid env frm turnNode onlyTo onto else acc)
        false = false from hgen _ h
  intro l
  induction l with
  | nil => intro _; rfl
  | cons e es ih =>
    intro hl
    rw [List.foldl_cons, if_neg (hl e (List.mem_cons_self _ _))]
    exact ih fun e' he' => hl e' (List.mem_cons_of_mem _ he')

theorem applyDeadEndFlag_of_not_could (env : Env) (frm : NodeID) (l : Intersection) :
    applyDeadEndFlag env frm false l = l := by
  unfold applyDeadEndFlag
  rw [if_neg]
  rintro ⟨-, hc⟩
  exact Bool.false_ne_true hc

theorem hasUturnEdge_targets {env : Env} {frm viaEid turnNode : Nat} {lanes : Nat}
    (h : hasUturnEdge env frm viaEid turnNode lanes = false) :
    ∀ e ∈ env.adjacentEdges turnNode, env.target e ≠ frm := by
  intro e he
  have := List.any_eq_false.mp h e he
  simp only [Bool.or_eq_true, beq_iff_eq, Bool.and_eq_true, bne_iff_ne, ne_eq,
    decide_eq_true_eq, not_or] at this
  exact this.1

/-- C7 (amended): the synthetic u-turn entry — edge id `via`, angle 0,
`entry_allowed = false` — is appended exactly when the scan flagged no
u-turn, that is, when no adjacent edge leads back to `from_node` **and** no
other adjacent edge's computed angle falls below machine epsilon; every
entry's edge id is then a real outgoing edge of the target node except this
one appended entry. -/
theorem C7_amended_synthetic_uturn (env : Env) (frm viaEid : Nat)
    (h : hasUturnEdge env frm viaEid (env.target viaEid)
      (env.laneCountAtIntersection (env.target viaEid)) = false) :
    (GetConnectedRoads env frm viaEid).length =
      (env.adjacentEdges (env.target viaEid)).length + 1 ∧
    (∃ r ∈ GetConnectedRoads env frm viaEid,
      r.eid = viaEid ∧ r.angle = 0 ∧ r.entry_allowed = false) ∧
    (∀ r ∈ GetConnectedRoads env frm viaEid,
      r.eid = viaEid ∨ r.eid ∈ env.adjacentEdges (env.target viaEid)) := by
  have hcould : uturnCouldBeValid env frm (env.target viaEid)
      (onlyRestrictionToNode env frm (env.target viaEid)) = false :=
    uturnCouldBeValid_false env frm _ _ (hasUturnEdge_targets h)
  have hgcr : GetConnectedRoads env frm viaEid =
      sortedRaw env frm viaEid (onlyRestrictionToNode env frm (env.target viaEid)) := by
    show applyDeadEndFlag env frm
        (uturnCouldBeValid env frm (env.target viaEid)
          (onlyRestrictionToNode env frm (env.target viaEid)))
        (sortedRaw env frm viaEid
          (onlyRestrictionToNode env frm (env.target viaEid))) = _
    rw [hcould, applyDeadEndFlag_of_not_could]
  have hsyn : withSynthetic env frm viaEid
      (onlyRestrictionToNode env frm (env.target viaEid)) =
      scannedRoads env frm viaEid (onlyRestrictionToNode env frm (env.target viaEid)) ++
        [syntheticUturn env frm viaEid (env.target viaEid)] := by
    unfold withSynthetic
    dsimp only
    rw [if_neg]
    rw [h]
    exact Bool.false_ne_true
  refine ⟨?_, ?_, GetConnectedRoads_eids env frm viaEid⟩
  · rw [hgcr]
    unfold sortedRaw
    rw [sortByAngle_length, hsyn, List.length_append]
    unfold scannedRoads
    dsimp only
    rw [List.length_map]
    rfl
  · refine ⟨syntheticUturn env frm viaEid (env.target viaEid), ?_, rfl, rfl, rfl⟩
    rw [hgcr]
    unfold sortedRaw
    rw [mem_sortByAngle, hsyn]
    exact List.mem_append_right _ (List.mem_singleton.mpr rfl)

/-- C7 amended, witnessed on `envSynthetic`: the only adjacent edge of node 0
has angle 30° and does not lead back to node 1, so the synthetic entry is
appended. -/
theorem C7_witness :
    (GetConnectedRoads envSynthetic 1 10).length =
      (envSynthetic.adjacentEdges (envSynthetic.target 10)).length + 1 ∧
    (∃ r ∈ GetConnectedRoads envSynthetic 1 10,
      r.eid = 10 ∧ r.angle = 0 ∧ r.entry_allowed = false) ∧
    (∀ r ∈ GetConnectedRoads envSynthetic 1 10,
      r.eid = 10 ∨ r.eid ∈ envSynthetic.adjacentEdges (envSynthetic.target 10)) :=
  C7_amended_synthetic_uturn envSynthetic 1 10 (by with_unfolding_all decide)

theorem GetConnectedRoads_eids_of_hasUturn (env : Env) (frm viaEid : Nat)
    (h : hasUturnEdge env frm viaEid (env.target viaEid)
      (env.laneCountAtIntersection (env.target viaEid)) = true) :
    ∀ r ∈ GetConnectedRoads env frm viaEid,
      r.eid ∈ env.adjacentEdges (env.target viaEid) := by
  intro r hr
  have hmem : r.eid ∈ (GetConnectedRoads env frm viaEid).map (·.eid) :=
    mem_map_eid_of_mem hr
  rw [show GetConnectedRoads env frm viaEid =
      applyDeadEndFlag env frm
        (uturnCouldBeValid env frm (env.target viaEid)
          (onlyRestrictionToNode env frm (env.target viaEid)))
        (sortedRaw env frm viaEid
          (onlyRestrictionToNode env frm (env.target viaEid))) from rfl,
    applyDeadEndFlag_map_eid] at hmem
  have hperm := (sortByAngle_perm (withSynthetic env frm viaEid
    (onlyRestrictionToNode env frm (env.target viaEid)))).map (·.eid)
  have hmem2 := hperm.mem_iff.mp hmem
  unfold withSynthetic at hmem2
  dsimp only at hmem2
  rw [if_pos h] at hmem2
  unfold scannedRoads at hmem2
  dsimp only at hmem2
  rw [List.map_map] at hmem2
  obtain ⟨e, he, heq⟩ := List.mem_map.mp hmem2
  rw [← heq]
  simpa [Function.comp, roadFor_eid] using he

/-- C10: the scan discovers a u-turn exactly when some adjacent edge leads
back to `from_node` or some other adjacent edge's computed angle falls
below machine epsilon; consequently, when only the epsilon case holds, no
synthetic entry is appended and no entry of the result — the slot-0 entry
included — has an edge leading back to `from_node`. -/
theorem C10_epsilon_uturn_detection (env : Env) (frm viaEid : Nat) :
    (hasUturnEdge env frm viaEid (env.target viaEid)
        (env.laneCountAtIntersection (env.target viaEid)) = true ↔
      ∃ e ∈ env.adjacentEdges (env.target viaEid),
        env.target e = frm ∨
          (env.target e ≠ frm ∧
            qabs (scanAngle env frm viaEid (env.target viaEid)
              (env.laneCountAtIntersection (env.target viaEid)) e) < MACHINE_EPS)) ∧
    ((∀ e ∈ env.adjacentEdges (env.target viaEid), env.target e ≠ frm) →
      (∃ e ∈ env.adjacentEdges (env.target viaEid),
        qabs (scanAngle env frm viaEid (env.target viaEid)
          (env.laneCountAtIntersection (env.target viaEid)) e) < MACHINE_EPS) →
      (GetConnectedRoads env frm viaEid).length =
          (env.adjacentEdges (env.target viaEid)).length ∧
        ∀ r ∈ GetConnectedRoads env frm viaEid, env.target r.eid ≠ frm) := by
  constructor
  · unfold hasUturnEdge
    rw [List.any_eq_true]
    constructor
    · rintro ⟨e, he, hcond⟩
      refine ⟨e, he, ?_⟩
      simp only [Bool.or_eq_true, beq_iff_eq, Bool.and_eq_true, bne_iff_ne, ne_eq,
        decide_eq_true_eq] at hcond
      tauto
    · rintro ⟨e, he, hcond⟩
      refine ⟨e, he, ?_⟩
      simp only [Bool.or_eq_true, beq_iff_eq, Bool.and_eq_true, bne_iff_ne, ne_eq,
        decide_eq_true_eq]
      tauto
  · intro hne heps
    have hut : hasUturnEdge env frm viaEid (env.target viaEid)
        (env.laneCountAtIntersection (env.target viaEid)) = true := by
      unfold hasUturnEdge
      rw [List.any_eq_true]
      obtain ⟨e, he, hlt⟩ := heps
      refine ⟨e, he, ?_⟩
      simp only [Bool.or_eq_true, beq_iff_eq, Bool.and_eq_true, bne_iff_ne, ne_eq,
        decide_eq_true_eq]
      exact Or.inr ⟨hne e he, hlt⟩
    constructor
    · rw [GetConnectedRoads_length]
      unfold withSynthetic
      dsimp only
      rw [if_pos hut]
      unfold scannedRoads
      dsimp only
      rw [List.length_map]
    · intro r hr
      exact fun htgt => hne r.eid (GetConnectedRoads_eids_of_hasUturn env frm viaEid hut r hr)
        htgt

/-- C10 witnessed on `envNoUturn`: the single adjacent edge has angle 0 and
does not return to the origin, so no synthetic entry appears and no entry
leads back. -/
theorem C10_witness :
    (GetConnectedRoads envNoUturn 1 10).length =
        (envNoUturn.adjacentEdges (envNoUturn.target 10)).length ∧
      ∀ r ∈ GetConnectedRoads envNoUturn 1 10, envNoUturn.target r.eid ≠ 1 :=
  (C10_epsilon_uturn_detection envNoUturn 1 10).2 (by with_unfolding_all decide)
    (by with_unfolding_all decide)

/-! ### Claim C4: u-turn validity -/

theorem uturn_valid_of_scanned {env : Env} {frm viaEid onlyTo : Nat}
    {r : ConnectedRoad}
    (hmem : r ∈ scannedRoads env frm viaEid onlyTo)
    (htgt : env.target r.eid = frm) (hallow : r.entry_allowed = true) :
    uturnScanValid env frm (env.target viaEid) onlyTo r.eid = true := by
  unfold scannedRoads at hmem
  dsimp only at hmem
  obtain ⟨onto, hadj, heq⟩ := List.mem_map.mp hmem
  subst heq
  rw [roadFor_eid] at htgt ⊢
  unfold roadFor at hallow
  dsimp only at hallow
  rw [if_pos htgt.symm] at hallow
  exact hallow

/-- C4 (amended): during the scan, the u-turn entry is marked valid iff the
base checks pass (not reversed, barrier and restriction compatible) and
additionally the node is a barrier, or has out-degree at most one, or emits
at most one bidirectional edge (the dead-end rule); moreover, any u-turn
entry of the final result marked valid either got its validity from the scan
or from the post-sort dead-end fix-up, which fires only when no entry at all
was valid and the u-turn had passed the base checks. -/
theorem C4_amended_uturn_validity (env : Env) (frm viaEid : Nat) :
    (∀ onto ∈ env.adjacentEdges (env.target viaEid), env.target onto = frm →
      (uturnScanValid env frm (env.target viaEid)
          (onlyRestrictionToNode env frm (env.target viaEid)) onto = true ↔
        (baseTurnValid env frm (env.target viaEid)
            (onlyRestrictionToNode env frm (env.target viaEid)) onto = true ∧
          (env.barrierNodes (env.target viaEid) = true ∨
            env.outDegree (env.target viaEid) ≤ 1 ∨
            emittingBidirectionalEdges env (env.target viaEid) ≤ 1)))) ∧
    (∀ r ∈ GetConnectedRoads env frm viaEid, env.target r.eid = frm →
      r.entry_allowed = true →
        uturnScanValid env frm (env.target viaEid)
            (onlyRestrictionToNode env frm (env.target viaEid)) r.eid = true ∨
          (uturnCouldBeValid env frm (env.target viaEid)
              (onlyRestrictionToNode env frm (env.target viaEid)) = true ∧
            (sortedRaw env frm viaEid
              (onlyRestrictionToNode env frm (env.target viaEid))).countP
                (·.entry_allowed) = 0)) := by
  constructor
  · intro onto _ _
    unfold uturnScanValid
    dsimp only
    split_ifs with h1 h2
    · rw [Bool.and_eq_true, Bool.not_eq_true'] at h1
      constructor
      · intro hd
        exact ⟨h1.1, Or.inr (Or.inr (by simpa using hd))⟩
      · rintro ⟨-, hb | ho | hd⟩
        · rw [h1.2] at hb
          exact absurd hb (by simp)
        · omega
        · simpa using hd
    · rw [Bool.and_eq_true, Bool.not_eq_true'] at h1
      constructor
      · intro hb
        exact ⟨hb, Or.inr (Or.inl (by omega))⟩
      · rintro ⟨hb, -⟩
        exact hb
    · constructor
      · intro hb
        rw [Bool.and_eq_true, Bool.not_eq_true'] at h1
        push_neg at h1
        refine ⟨hb, Or.inl ?_⟩
        rcases Bool.eq_false_or_eq_true (env.barrierNodes (env.target viaEid)) with hbar | hbar
        · exact hbar
        · exact absurd hbar (h1 hb)
      · rintro ⟨hb, -⟩
        exact hb
  · intro r hr htgt hallow
    rw [show GetConnectedRoads env frm viaEid =
        applyDeadEndFlag env frm
          (uturnCouldBeValid env frm (env.target viaEid)
            (onlyRestrictionToNode env frm (env.target viaEid)))
          (sortedRaw env frm viaEid
            (onlyRestrictionToNode env frm (env.target viaEid))) from rfl] at hr
    unfold applyDeadEndFlag at hr
    split_ifs at hr with hfix
    · rcases mem_setAt hr with rfl | hmem
      · exact Or.inr ⟨hfix.2, hfix.1⟩
      · exact absurd hallow (by
          simpa using List.countP_eq_zero.mp hfix.1 r hmem)
    · left
      have hmem : r ∈ withSynthetic env frm viaEid
          (onlyRestrictionToNode env frm (env.target viaEid)) := by
        rw [← mem_sortByAngle]
        exact hr
      unfold withSynthetic at hmem
      dsimp only at hmem
      split_ifs at hmem with hut
      · exact uturn_valid_of_scanned hmem htgt hallow
      · rcases List.mem_append.mp hmem with hmem' | hmem'
        · exact uturn_valid_of_scanned hmem' htgt hallow
        · rw [List.mem_singleton.mp hmem'] at hallow
          exact absurd hallow (by simp [syntheticUturn])

/-- C4 amended, witnessed on `envDeadEnd` for its u-turn edge 20. -/
theorem C4_witness :
    uturnScanValid envDeadEnd 1 (envDeadEnd.target 10)
        (onlyRestrictionToNode envDeadEnd 1 (envDeadEnd.target 10)) 20 = true ↔
      (baseTurnValid envDeadEnd 1 (envDeadEnd.target 10)
          (onlyRestrictionToNode envDeadEnd 1 (envDeadEnd.target 10)) 20 = true ∧
        (envDeadEnd.barrierNodes (envDeadEnd.target 10) = true ∨
          envDeadEnd.outDegree (envDeadEnd.target 10) ≤ 1 ∨
          emittingBidirectionalEdges envDeadEnd (envDeadEnd.target 10) ≤ 1)) :=
  (C4_amended_uturn_validity envDeadEnd 1 10).1 20 (by with_unfolding_all decide)
    (by with_unfolding_all decide)

/-! ### Claim C6: the pairwise merge -/

/-- C6 (amended): the pairwise merge copies the first entry when it is
`entry_allowed` and the second one otherwise — also when neither is allowed —
and replaces angle and bearing by the angular midpoint of the two inputs on
the shorter arc: the merged value sits at half the angular deviation from
each input. -/
theorem C6_amended_merge_fields (x y : ConnectedRoad)
    (hx0 : 0 ≤ x.angle) (hx1 : x.angle < 360) (hy0 : 0 ≤ y.angle) (hy1 : y.angle < 360)
    (hbx0 : 0 ≤ x.bearing) (hbx1 : x.bearing < 360)
    (hby0 : 0 ≤ y.bearing) (hby1 : y.bearing < 360) :
    (x.entry_allowed = true →
      (mergeRoads x y).eid = x.eid ∧ (mergeRoads x y).entry_allowed = true) ∧
    (x.entry_allowed = false →
      (mergeRoads x y).eid = y.eid ∧ (mergeRoads x y).entry_allowed = y.entry_allowed) ∧
    angularDeviation (mergeRoads x y).angle x.angle =
      angularDeviation x.angle y.angle / 2 ∧
    angularDeviation (mergeRoads x y).angle y.angle =
      angularDeviation x.angle y.angle / 2 ∧
    angularDeviation (mergeRoads x y).bearing x.bearing =
      angularDeviation x.bearing y.bearing / 2 ∧
    angularDeviation (mergeRoads x y).bearing y.bearing =
      angularDeviation x.bearing y.bearing / 2 := by
  have hangle : (mergeRoads x y).angle = angleBetween x.angle y.angle := by
    unfold mergeRoads
    dsimp only
  have hbearing : (mergeRoads x y).bearing = angleBetween x.bearing y.bearing := by
    unfold mergeRoads
    dsimp only
  refine ⟨?_, ?_, ?_, ?_, ?_, ?_⟩
  · intro hall
    unfold mergeRoads
    rw [hall]
    exact ⟨rfl, hall⟩
  · intro hall
    unfold mergeRoads
    rw [hall]
    exact ⟨rfl, rfl⟩
  · rw [hangle]
    exact (angleBetween_halves hx0 hx1 hy0 hy1).1
  · rw [hangle]
    exact (angleBetween_halves hx0 hx1 hy0 hy1).2
  · rw [hbearing]
    exact (angleBetween_halves hbx0 hbx1 hby0 hby1).1
  · rw [hbearing]
    exact (angleBetween_halves hbx0 hbx1 hby0 hby1).2

/-- C6 amended, witnessed on a concrete disallowed/allowed pair. -/
theorem C6_witness :
    ((⟨1, 30, 10, 0, 0, 0, false⟩ : ConnectedRoad).entry_allowed = true →
      (mergeRoads ⟨1, 30, 10, 0, 0, 0, false⟩ ⟨2, 40, 20, 0, 0, 0, true⟩).eid = 1 ∧
      (mergeRoads ⟨1, 30, 10, 0, 0, 0, false⟩ ⟨2, 40, 20, 0, 0, 0, true⟩).entry_allowed =
        true) ∧
    ((⟨1, 30, 10, 0, 0, 0, false⟩ : ConnectedRoad).entry_allowed = false →
      (mergeRoads ⟨1, 30, 10, 0, 0, 0, false⟩ ⟨2, 40, 20, 0, 0, 0, true⟩).eid = 2 ∧
      (mergeRoads ⟨1, 30, 10, 0, 0, 0, false⟩ ⟨2, 40, 20, 0, 0, 0, true⟩).entry_allowed =
        (⟨2, 40, 20, 0, 0, 0, true⟩ : ConnectedRoad).entry_allowed) ∧
    angularDeviation
        (mergeRoads ⟨1, 30, 10, 0, 0, 0, false⟩ ⟨2, 40, 20, 0, 0, 0, true⟩).angle 30 =
      angularDeviation 30 40 / 2 ∧
    angularDeviation
        (mergeRoads ⟨1, 30, 10, 0, 0, 0, false⟩ ⟨2, 40, 20, 0, 0, 0, true⟩).angle 40 =
      angularDeviation 30 40 / 2 ∧
    angularDeviation
        (mergeRoads ⟨1, 30, 10, 0, 0, 0, false⟩ ⟨2, 40, 20, 0, 0, 0, true⟩).bearing 10 =
      angularDeviation 10 20 / 2 ∧
    angularDeviation
        (mergeRoads ⟨1, 30, 10, 0, 0, 0, false⟩ ⟨2, 40, 20, 0, 0, 0, true⟩).bearing 20 =
      angularDeviation 10 20 / 2 :=
  C6_amended_merge_fields ⟨1, 30, 10, 0, 0, 0, false⟩ ⟨2, 40, 20, 0, 0, 0, true⟩
    (by norm_num) (by norm_num) (by norm_num) (by norm_num)
    (by norm_num) (by norm_num) (by norm_num) (by norm_num)

/-! ### Claim C2: idempotence of the segregated merge -/

theorem GetConnectedRoads_no_special (env : Env) (frm viaEid : Nat) (hWF : WF env)
    (hvia : viaEid ≠ SPECIAL_EDGEID) :
    ∀ r ∈ GetConnectedRoads env frm viaEid, r.eid ≠ SPECIAL_EDGEID := by
  intro r hr
  rcases GetConnectedRoads_eids env frm viaEid r hr with heq | hmem
  · rw [heq]
    exact hvia
  · intro hsp
    rw [hsp] at hmem
    exact hWF.2.2 _ hmem

theorem MergeSegregatedRoads_sorted (env : Env) (node : NodeID) {xs : Intersection}
    (h : List.Sorted byAngle xs) :
    List.Sorted byAngle (MergeSegregatedRoads env node xs) := by
  unfold MergeSegregatedRoads
  dsimp only
  split
  · exact h
  · exact sortByAngle_sorted _

theorem MergeSegregatedRoads_no_special (env : Env) (node : NodeID) {xs : Intersection}
    (h : ∀ r ∈ xs, r.eid ≠ SPECIAL_EDGEID) :
    ∀ r ∈ MergeSegregatedRoads env node xs, r.eid ≠ SPECIAL_EDGEID := by
  unfold MergeSegregatedRoads
  dsimp only
  split
  · exact h
  · intro r hr
    rw [mem_sortByAngle] at hr
    have := (List.mem_filter.mp hr).2
    simpa using this

theorem mergeSweepStep_of_not_mergeable (env : Env) (node : NodeID) (l : Intersection)
    (i : Nat) (h : CanMerge env node l i (i - 1) = false) :
    mergeSweepStep env node l i = l := by
  unfold mergeSweepStep
  dsimp only
  rw [if_neg]
  rintro ⟨-, hc⟩
  rw [h] at hc
  exact Bool.false_ne_true hc

theorem mergeSweep_no_merge (env : Env) (node : NodeID) (l : Intersection)
    (h : ∀ i, 2 ≤ i → i < l.length → CanMerge env node l i (i - 1) = false) :
    mergeSweep env node l = l := by
  unfold mergeSweep
  suffices hgen : ∀ is : List Nat, (∀ i ∈ is, 2 ≤ i ∧ i < l.length) →
      is.foldl (mergeSweepStep env node) l = l by
    refine hgen _ fun i hi => ?_
    have := List.mem_range'_1.mp hi
    omega
  intro is
  induction is with
  | nil => intro _; rfl
  | cons i is ih =>
    intro his
    have hi := his i (List.mem_cons_self _ _)
    rw [List.foldl_cons, mergeSweepStep_of_not_mergeable env node l i
      (h i hi.1 hi.2)]
    exact ih fun j hj => his j (List.mem_cons_of_mem _ hj)

/-- The segregated merge fixes any sorted, sentinel-free intersection whose
circularly adjacent pairs — `(0, n-1)`, `(0, 1)`, and `(i, i-1)` for
`i ≥ 2` — are all unmergeable. -/
theorem MergeSegregatedRoads_fixed_point (env : Env) (node : NodeID) (y : Intersection)
    (hsorted : List.Sorted byAngle y)
    (hnos : ∀ r ∈ y, r.eid ≠ SPECIAL_EDGEID)
    (h0 : CanMerge env node y 0 (y.length - 1) = false)
    (h1 : CanMerge env node y 0 1 = false)
    (h2 : ∀ i, 2 ≤ i → i < y.length → CanMerge env node y i (i - 1) = false) :
    MergeSegregatedRoads env node y = y := by
  unfold MergeSegregatedRoads
  dsimp only
  split
  · rfl
  · rw [h0, h1]
    simp only [Bool.false_eq_true, if_false]
    rw [if_neg (by rintro ⟨hc, -⟩; exact hc)]
    rw [mergeSweep_no_merge env node y h2]
    rw [List.filter_eq_self.mpr fun r hr => by simpa using hnos r hr]
    exact sortByAngle_eq_of_sorted hsorted

/-- C2 (amended): the segregated merge is idempotent on every intersection
produced by `connected_roads` whose merged form has no circularly adjacent
mergeable pair left; the counterexample shows that without this proviso a
second pass can merge further, because the sweep never re-examines a pair
that became adjacent through a removal. -/
theorem C2_amended_merge_idempotent (env : Env) (frm viaEid : Nat) (hWF : WF env)
    (hvia : viaEid ≠ SPECIAL_EDGEID)
    (h0 : CanMerge env (env.target viaEid)
      (MergeSegregatedRoads env (env.target viaEid) (GetConnectedRoads env frm viaEid)) 0
      ((MergeSegregatedRoads env (env.target viaEid)
        (GetConnectedRoads env frm viaEid)).length - 1) = false)
    (h1 : CanMerge env (env.target viaEid)
      (MergeSegregatedRoads env (env.target viaEid) (GetConnectedRoads env frm viaEid))
      0 1 = false)
    (h2 : ∀ i, 2 ≤ i →
      i < (MergeSegregatedRoads env (env.target viaEid)
        (GetConnectedRoads env frm viaEid)).length →
      CanMerge env (env.target viaEid)
        (MergeSegregatedRoads env (env.target viaEid) (GetConnectedRoads env frm viaEid))
        i (i - 1) = false) :
    MergeSegregatedRoads env (env.target viaEid)
        (MergeSegregatedRoads env (env.target viaEid)
          (GetConnectedRoads env frm viaEid)) =
      MergeSegregatedRoads env (env.target viaEid) (GetConnectedRoads env frm viaEid) :=
  MergeSegregatedRoads_fixed_point env (env.target viaEid) _
    (MergeSegregatedRoads_sorted env (env.target viaEid)
      (GetConnectedRoads_sorted env frm viaEid))
    (MergeSegregatedRoads_no_special env (env.target viaEid)
      (GetConnectedRoads_no_special env frm viaEid hWF hvia))
    h0 h1 h2

/-- C2 amended, witnessed on `envDeadEnd`, whose merged intersection is a
single u-turn with nothing mergeable. -/
theorem C2_witness :
    MergeSegregatedRoads envDeadEnd (envDeadEnd.target 10)
        (MergeSegregatedRoads envDeadEnd (envDeadEnd.target 10)
          (GetConnectedRoads envDeadEnd 1 10)) =
      MergeSegregatedRoads envDeadEnd (envDeadEnd.target 10)
        (GetConnectedRoads envDeadEnd 1 10) :=
  C2_amended_merge_idempotent envDeadEnd 1 10 wf_envDeadEnd
    (by norm_num [SPECIAL_EDGEID])
    (by with_unfolding_all decide) (by with_unfolding_all decide)
    (by
      intro i hi hlt
      have hlen : (MergeSegregatedRoads envDeadEnd (envDeadEnd.target 10)
          (GetConnectedRoads envDeadEnd 1 10)).length = 1 := by
        with_unfolding_all decide
      rw [hlen] at hlt
      omega)

/-! ### Claim C3: value ranges of angles and bearings -/

/-- The range predicate of the raw and merged stages. -/
def inRange (r : ConnectedRoad) : Prop :=
  (0 ≤ r.angle ∧ r.angle < 360) ∧ 0 ≤ r.bearing ∧ r.bearing < 360

/-- The (weaker) range predicate after the joining adjustment. -/
def inClosedRange (r : ConnectedRoad) : Prop :=
  (0 ≤ r.angle ∧ r.angle ≤ 360) ∧ 0 ≤ r.bearing ∧ r.bearing ≤ 360

theorem inRange_default : inRange default := by
  unfold inRange
  have h1 : (default : ConnectedRoad).angle = 0 := rfl
  have h2 : (default : ConnectedRoad).bearing = 0 := rfl
  rw [h1, h2]
  norm_num

theorem nth_mem_or_default (l : Intersection) (i : Nat) :
    nth l i ∈ l ∨ nth l i = default := by
  induction l generalizing i with
  | nil => exact Or.inr (nth_nil i)
  | cons r rs ih =>
    cases i with
    | zero => exact Or.inl (List.mem_cons_self _ _)
    | succ j =>
      rw [nth_cons_succ]
      rcases ih j with h | h
      · exact Or.inl (List.mem_cons_of_mem _ h)
      · exact Or.inr h

theorem nth_range {l : Intersection} {P : ConnectedRoad → Prop}
    (h : ∀ r ∈ l, P r) (hd : P default) (i : Nat) : P (nth l i) := by
  rcases nth_mem_or_default l i with hm | hm
  · exact h _ hm
  · rw [hm]
    exact hd

theorem mem_mapIdxFrom {f : Nat → ConnectedRoad → ConnectedRoad} :
    ∀ {i : Nat} {l : Intersection} {r : ConnectedRoad}, r ∈ mapIdxFrom f i l →
      ∃ j, j < l.length ∧ r = f (i + j) (nth l j) := by
  intro i l
  induction l generalizing i with
  | nil => intro r hr; simp [mapIdxFrom] at hr
  | cons x rs ih =>
    intro r hr
    rcases List.mem_cons.mp hr with h | h
    · exact ⟨0, by simp, by simpa [nth_cons_zero] using h⟩
    · obtain ⟨j, hj, heq⟩ := ih h
      exact ⟨j + 1, by simpa using hj, by
        rw [nth_cons_succ]
        rw [heq]
        congr 1
        omega⟩

theorem scanned_inRange (env : Env) (hWF : WF env) (frm viaEid onlyTo : Nat) :
    ∀ r ∈ scannedRoads env frm viaEid onlyTo, inRange r := by
  intro r hr
  unfold scannedRoads at hr
  dsimp only at hr
  obtain ⟨onto, -, heq⟩ := List.mem_map.mp hr
  rw [← heq]
  unfold roadFor inRange
  dsimp only
  split_ifs
  · exact ⟨⟨le_refl 0, by norm_num⟩, hWF.2.1 _ _⟩
  · exact ⟨hWF.1 _ _ _, hWF.2.1 _ _⟩

theorem GetConnectedRoads_inRange (env : Env) (hWF : WF env) (frm viaEid : Nat) :
    ∀ r ∈ GetConnectedRoads env frm viaEid, inRange r := by
  intro r hr
  rw [show GetConnectedRoads env frm viaEid =
      applyDeadEndFlag env frm
        (uturnCouldBeValid env frm (env.target viaEid)
          (onlyRestrictionToNode env frm (env.target viaEid)))
        (sortedRaw env frm viaEid
          (onlyRestrictionToNode env frm (env.target viaEid))) from rfl] at hr
  have hraw : ∀ r' ∈ sortedRaw env frm viaEid
      (onlyRestrictionToNode env frm (env.target viaEid)), inRange r' := by
    intro r' hr'
    rw [show sortedRaw env frm viaEid (onlyRestrictionToNode env frm (env.target viaEid)) =
      sortByAngle (withSynthetic env frm viaEid
        (onlyRestrictionToNode env frm (env.target viaEid))) from rfl,
      mem_sortByAngle] at hr'
    unfold withSynthetic at hr'
    dsimp only at hr'
    split_ifs at hr' with hut
    · exact scanned_inRange env hWF frm viaEid _ r' hr'
    · rcases List.mem_append.mp hr' with hm | hm
      · exact scanned_inRange env hWF frm viaEid _ r' hm
      · rw [List.mem_singleton.mp hm]
        unfold syntheticUturn inRange
        dsimp only
        exact ⟨⟨le_refl 0, by norm_num⟩, hWF.2.1 _ _⟩
  unfold applyDeadEndFlag at hr
  split_ifs at hr
  · rcases mem_setAt hr with rfl | hmem
    · have := nth_range hraw inRange_default
        ((sortedRaw env frm viaEid
          (onlyRestrictionToNode env frm (env.target viaEid))).findIdx
          fun r => !(decide (r.angle < MACHINE_EPS) &&
            (env.target r.eid != frm)))
      exact this
    · exact hraw r hmem
  · exact hraw r hr

theorem nth_eq_getElem {l : Intersection} {i : Nat} (h : i < l.length) :
    nth l i = l[i] :=
  List.getD_eq_getElem l default h

theorem sorted_nth_le {l : Intersection} (hs : List.Sorted byAngle l) {i j : Nat}
    (hij : i ≤ j) (hj : j < l.length) : (nth l i).angle ≤ (nth l j).angle := by
  rcases Nat.lt_or_ge i j with hlt | hge
  · have hi : i < l.length := lt_trans hlt hj
    rw [nth_eq_getElem hi, nth_eq_getElem hj]
    exact List.pairwise_iff_getElem.mp hs i j hi hj hlt
  · have heq : i = j := le_antisymm hij hge
    rw [heq]

theorem inRange_set_entry (x : ConnectedRoad) (b : Bool) (h : inRange x) :
    inRange { x with entry_allowed := b } := by
  unfold inRange at h ⊢
  exact h

theorem setAt_entry_inRange {l : Intersection} (h : ∀ r ∈ l, inRange r) :
    ∀ r ∈ setAt l 0 { nth l 0 with entry_allowed := false }, inRange r := by
  intro r hr
  rcases mem_setAt hr with rfl | hm
  · exact inRange_set_entry _ _ (nth_range h inRange_default 0)
  · exact h r hm

theorem mergeRoads_inRange {x y : ConnectedRoad} (hx : inRange x) (hy : inRange y) :
    inRange (mergeRoads x y) := by
  unfold inRange at hx hy ⊢
  unfold mergeRoads
  dsimp only
  exact ⟨angleBetween_mem hx.1.1 hx.1.2 hy.1.1 hy.1.2,
    angleBetween_mem hx.2.1 hx.2.2 hy.2.1 hy.2.2⟩

theorem merged0_inRange {x y : ConnectedRoad} (hx : inRange x) (hy : inRange y) :
    inRange { mergeRoads x y with angle := 0 } := by
  have hb := (mergeRoads_inRange hx hy).2
  exact ⟨⟨le_refl 0, by norm_num⟩, hb⟩

theorem branch1_inRange {xs : Intersection} (hsorted : List.Sorted byAngle xs)
    (h : ∀ r ∈ xs, inRange r) :
    ∀ r ∈ (setAt (mapIdxFrom
        (fun i r => if 1 ≤ i ∧ i + 1 < xs.length then
          { r with angle := r.angle + (360 - (nth xs (xs.length - 1)).angle) / 2 }
          else r) 0 xs) 0
        { mergeRoads (nth xs 0) (nth xs (xs.length - 1)) with angle := 0 }).dropLast,
      inRange r := by
  intro r hr
  have hr' := (List.dropLast_sublist _).subset hr
  rcases mem_setAt hr' with rfl | hmem
  · exact merged0_inRange (nth_range h inRange_default 0)
      (nth_range h inRange_default (xs.length - 1))
  · obtain ⟨j, hj, rfl⟩ := mem_mapIdxFrom hmem
    by_cases hc : 1 ≤ 0 + j ∧ 0 + j + 1 < xs.length
    · rw [if_pos hc]
      have hjr := nth_range h inRange_default j
      have hlast := nth_range h inRange_default (xs.length - 1)
      have hle : (nth xs j).angle ≤ (nth xs (xs.length - 1)).angle :=
        sorted_nth_le hsorted (by omega) (by omega)
      unfold inRange at hjr hlast ⊢
      dsimp only
      refine ⟨⟨?_, ?_⟩, hjr.2⟩
      · have := hlast.1.2
        linarith [hjr.1.1]
      · linarith [hlast.1.1, hlast.1.2, hjr.1.2]
    · rw [if_neg hc]
      exact nth_range h inRange_default j

theorem branch2_inRange {xs : Intersection} (hsorted : List.Sorted byAngle xs)
    (h : ∀ r ∈ xs, inRange r) :
    ∀ r ∈ (setAt (mapIdxFrom
        (fun i r => if 2 ≤ i then { r with angle := r.angle - (nth xs 1).angle / 2 }
          else r) 0 xs) 0
        { mergeRoads (nth xs 0) (nth xs 1) with angle := 0 }).eraseIdx 1,
      inRange r := by
  intro r hr
  have hr' := (List.eraseIdx_sublist _ 1).subset hr
  rcases mem_setAt hr' with rfl | hmem
  · exact merged0_inRange (nth_range h inRange_default 0)
      (nth_range h inRange_default 1)
  · obtain ⟨j, hj, rfl⟩ := mem_mapIdxFrom hmem
    by_cases hc : 2 ≤ 0 + j
    · rw [if_pos hc]
      have hjr := nth_range h inRange_default j
      have h1 := nth_range h inRange_default 1
      have hle : (nth xs 1).angle ≤ (nth xs j).angle :=
        sorted_nth_le hsorted (by omega) (by omega)
      unfold inRange at hjr h1 ⊢
      dsimp only
      refine ⟨⟨?_, ?_⟩, hjr.2⟩
      · linarith [h1.1.1]
      · linarith [hjr.1.2, h1.1.1]
    · rw [if_neg hc]
      exact nth_range h inRange_default j

theorem mergeSweepStep_inRange (env : Env) (node : NodeID) {l : Intersection}
    (h : ∀ r ∈ l, inRange r) (i : Nat) :
    ∀ r ∈ mergeSweepStep env node l i, inRange r := by
  intro r hr
  unfold mergeSweepStep at hr
  dsimp only at hr
  split_ifs at hr
  · rcases mem_setAt hr with rfl | hmem
    · have hi := nth_range h inRange_default i
      unfold inRange at hi ⊢
      exact hi
    · rcases mem_setAt hmem with rfl | hmem'
      · exact mergeRoads_inRange (nth_range h inRange_default _)
          (nth_range h inRange_default _)
      · exact h r hmem'
  · exact h r hr

theorem mergeSweep_inRange (env : Env) (node : NodeID) {l : Intersection}
    (h : ∀ r ∈ l, inRange r) : ∀ r ∈ mergeSweep env node l, inRange r := by
  unfold mergeSweep
  suffices hgen : ∀ (is : List Nat) (l' : Intersection), (∀ r ∈ l', inRange r) →
      ∀ r ∈ is.foldl (mergeSweepStep env node) l', inRange r from hgen _ l h
  intro is
  induction is with
  | nil => intro l' h' r hr; exact h' r hr
  | cons i is ih =>
    intro l' h' r hr
    rw [List.foldl_cons] at hr
    exact ih _ (mergeSweepStep_inRange env node h' i) r hr

theorem MergeSegregatedRoads_inRange (env : Env) (node : NodeID) {xs : Intersection}
    (hsorted : List.Sorted byAngle xs) (h : ∀ r ∈ xs, inRange r) :
    ∀ r ∈ MergeSegregatedRoads env node xs, inRange r := by
  intro r hr
  unfold MergeSegregatedRoads at hr
  dsimp only at hr
  split at hr
  · exact h r hr
  · rw [mem_sortByAngle] at hr
    have hr2 := (List.mem_filter.mp hr).1
    refine mergeSweep_inRange env node ?_ r hr2
    intro x hx
    split at hx
    · dsimp only at hx
      split at hx
      · exact setAt_entry_inRange (branch1_inRange hsorted h) x hx
      · exact branch1_inRange hsorted h x hx
    · split at hx
      · dsimp only at hx
        split at hx
        · exact setAt_entry_inRange (branch2_inRange hsorted h) x hx
        · exact branch2_inRange hsorted h x hx
      · dsimp only at hx
        split at hx
        · exact setAt_entry_inRange h x hx
        · exact h x hx

theorem inClosedRange_of_inRange {r : ConnectedRoad} (h : inRange r) : inClosedRange r := by
  unfold inRange at h
  unfold inClosedRange
  exact ⟨⟨h.1.1, le_of_lt h.1.2⟩, h.2.1, le_of_lt h.2.2⟩

theorem inClosedRange_default : inClosedRange default := by
  unfold inClosedRange
  have h1 : (default : ConnectedRoad).angle = 0 := rfl
  have h2 : (default : ConnectedRoad).bearing = 0 := rfl
  rw [h1, h2]
  norm_num

theorem getCorrectedOffset_nonneg (env : Env) (lhs rhs road next : ConnectedRoad) :
    0 ≤ getCorrectedOffset env (getOffset lhs rhs) road next := by
  unfold getCorrectedOffset getOffset
  dsimp only
  have h1 := angularDeviation_nonneg road.angle next.angle
  have h2 := angularDeviation_nonneg lhs.angle rhs.angle
  split_ifs <;> linarith

theorem getCorrectedOffset_le_90 (env : Env) (lhs rhs road next : ConnectedRoad) :
    getCorrectedOffset env (getOffset lhs rhs) road next ≤ 90 := by
  unfold getCorrectedOffset getOffset
  dsimp only
  have h1 := angularDeviation_le_180 road.angle next.angle
  have h2 := angularDeviation_le_180 lhs.angle rhs.angle
  split_ifs <;> linarith

theorem adjustAngle_bounds {a c : ℚ} (ha0 : 0 ≤ a) (ha : a ≤ 360) (hc0 : -90 ≤ c)
    (hc : c ≤ 90) : 0 ≤ adjustAngle a c ∧ adjustAngle a c ≤ 360 := by
  unfold adjustAngle
  dsimp only
  split_ifs with h1 h2
  · constructor <;> linarith
  · constructor <;> linarith
  · push_neg at h1 h2
    constructor <;> linarith

theorem adjustStep_inClosedRange (env : Env) (node : NodeID) {l : Intersection}
    (h : ∀ r ∈ l, inClosedRange r) (i : Nat) :
    ∀ r ∈ adjustStep env node l i, inClosedRange r := by
  intro r hr
  unfold adjustStep at hr
  dsimp only at hr
  split_ifs at hr
  · exact h r hr
  · exact h r hr
  · exact h r hr
  · rcases mem_setAt hr with rfl | hm
    · have hroad := nth_range h inClosedRange_default i
      unfold inClosedRange at hroad ⊢
      dsimp only
      refine ⟨adjustAngle_bounds hroad.1.1 hroad.1.2 ?_ ?_,
        adjustAngle_bounds hroad.2.1 hroad.2.2 ?_ ?_⟩
      · exact le_trans (by norm_num) (getCorrectedOffset_nonneg env _ _ _ _)
      · exact getCorrectedOffset_le_90 env _ _ _ _
      · exact le_trans (by norm_num) (getCorrectedOffset_nonneg env _ _ _ _)
      · exact getCorrectedOffset_le_90 env _ _ _ _
    · exact h r hm
  · rcases mem_setAt hr with rfl | hm
    · have hroad := nth_range h inClosedRange_default i
      unfold inClosedRange at hroad ⊢
      dsimp only
      refine ⟨adjustAngle_bounds hroad.1.1 hroad.1.2 ?_ ?_,
        adjustAngle_bounds hroad.2.1 hroad.2.2 ?_ ?_⟩
      · exact neg_le_neg (getCorrectedOffset_le_90 env _ _ _ _)
      · exact le_trans (neg_nonpos.mpr (getCorrectedOffset_nonneg env _ _ _ _))
          (by norm_num)
      · exact neg_le_neg (getCorrectedOffset_le_90 env _ _ _ _)
      · exact le_trans (neg_nonpos.mpr (getCorrectedOffset_nonneg env _ _ _ _))
          (by norm_num)
    · exact h r hm
  · exact h r hr

theorem foldlAdjust_inClosedRange (env : Env) (node : NodeID) (is : List Nat) :
    ∀ {l : Intersection}, (∀ r ∈ l, inClosedRange r) →
      ∀ r ∈ is.foldl (adjustStep env node) l, inClosedRange r := by
  induction is with
  | nil => intro l h r hr; exact h r hr
  | cons i is ih =>
    intro l h r hr
    rw [List.foldl_cons] at hr
    exact ih (adjustStep_inClosedRange env node h i) r hr

theorem AdjustForJoiningRoads_inClosedRange (env : Env) (node : NodeID)
    {l : Intersection} (h : ∀ r ∈ l, inClosedRange r) :
    ∀ r ∈ AdjustForJoiningRoads env node l, inClosedRange r := by
  unfold AdjustForJoiningRoads
  split
  · exact h
  · exact foldlAdjust_inClosedRange env node _ h

/-- C3 (amended): in every intersection returned by the raw
(`GetConnectedRoads`) and merged (`MergeSegregatedRoads`) stages, every
entry's angle and bearing lie in `[0, 360)`; after the joining adjustment
(the full pipeline `intersectionAt`) they lie in `[0, 360]`, and the value
exactly `360` is attainable because `adjustAngle` folds only values
strictly greater than `360`. -/
theorem C3_amended_ranges (env : Env) (frm viaEid : Nat) (hWF : WF env) :
    (∀ r ∈ GetConnectedRoads env frm viaEid, inRange r) ∧
    (∀ r ∈ MergeSegregatedRoads env (env.target viaEid)
        (GetConnectedRoads env frm viaEid), inRange r) ∧
    (∀ r ∈ intersectionAt env frm viaEid, inClosedRange r) ∧
    (∀ a c : ℚ, a + c = 360 → adjustAngle a c = 360) := by
  have hraw := GetConnectedRoads_inRange env hWF frm viaEid
  have hsorted := GetConnectedRoads_sorted env frm viaEid
  have hmerged := MergeSegregatedRoads_inRange env (env.target viaEid) hsorted hraw
  refine ⟨hraw, hmerged, ?_, ?_⟩
  · intro r hr
    unfold intersectionAt at hr
    dsimp only at hr
    exact AdjustForJoiningRoads_inClosedRange env _
      (fun r' hr' => inClosedRange_of_inRange (hmerged r' hr')) r hr
  · intro a c hac
    unfold adjustAngle
    dsimp only
    rw [hac]
    norm_num

/-- C3 amended, witnessed on the dead-end environment. -/
theorem C3_witness :
    (∀ r ∈ GetConnectedRoads envDeadEnd 1 10, inRange r) ∧
    (∀ r ∈ MergeSegregatedRoads envDeadEnd (envDeadEnd.target 10)
        (GetConnectedRoads envDeadEnd 1 10), inRange r) ∧
    (∀ r ∈ intersectionAt envDeadEnd 1 10, inClosedRange r) ∧
    (∀ a c : ℚ, a + c = 360 → adjustAngle a c = 360) :=
  C3_amended_ranges envDeadEnd 1 10 wf_envDeadEnd

/-! ### Claim C1: invariants of the full pipeline -/

theorem MergeSegregatedRoads_eq (env : Env) (node : NodeID) (xs : Intersection) :
    MergeSegregatedRoads env node xs =
      if xs.length ≤ 1 then xs
      else sortByAngle ((mergeSweep env node (afterRoundabout env node xs)).filter
        fun road => road.eid ≠ SPECIAL_EDGEID) := rfl

theorem nth_mem {l : Intersection} {i : Nat} (h : i < l.length) : nth l i ∈ l := by
  rw [nth_eq_getElem h]
  exact List.getElem_mem h

theorem getD_map_angle : ∀ (l : Intersection) (i : Nat),
    (l.map (·.angle)).getD i (default : ConnectedRoad).angle = (nth l i).angle
  | [], _ => rfl
  | _ :: _, 0 => rfl
  | _ :: rs, i + 1 => getD_map_angle rs i

theorem getD_map_eid : ∀ (l : Intersection) (i : Nat),
    (l.map (·.eid)).getD i (default : ConnectedRoad).eid = (nth l i).eid
  | [], _ => rfl
  | _ :: _, 0 => rfl
  | _ :: rs, i + 1 => getD_map_eid rs i

theorem nth_angle_of_map_eq {l₁ l₂ : Intersection}
    (h : l₁.map (·.angle) = l₂.map (·.angle)) (i : Nat) :
    (nth l₁ i).angle = (nth l₂ i).angle := by
  rw [← getD_map_angle l₁ i, ← getD_map_angle l₂ i, h]

theorem nth_eid_of_map_eq {l₁ l₂ : Intersection}
    (h : l₁.map (·.eid) = l₂.map (·.eid)) (i : Nat) :
    (nth l₁ i).eid = (nth l₂ i).eid := by
  rw [← getD_map_eid l₁ i, ← getD_map_eid l₂ i, h]

theorem tail_map {β : Type} (f : ConnectedRoad → β) (l : Intersection) :
    l.tail.map f = (l.map f).tail := by
  cases l <;> rfl

theorem mem_tail_eid {l₁ l₂ : Intersection} (h : l₁.map (·.eid) = l₂.map (·.eid))
    {r : ConnectedRoad} (hr : r ∈ l₁.tail) : ∃ r' ∈ l₂.tail, r'.eid = r.eid := by
  have h1 : r.eid ∈ l₁.tail.map (·.eid) := List.mem_map_of_mem _ hr
  rw [tail_map, h, ← tail_map] at h1
  obtain ⟨r', hr', he⟩ := List.mem_map.mp h1
  exact ⟨r', hr', he⟩

theorem eq_nth_zero_cons {l : Intersection} (h : l ≠ []) : l = nth l 0 :: l.tail := by
  cases l with
  | nil => exact absurd rfl h
  | cons x t => rfl

theorem setAt_zero {l : Intersection} (h : l ≠ []) (v : ConnectedRoad) :
    setAt l 0 v = v :: l.tail := by
  cases l with
  | nil => exact absurd rfl h
  | cons x t => rfl

theorem nth_tail (l : Intersection) (i : Nat) : nth l.tail i = nth l (i + 1) := by
  cases l <;> rfl

theorem tail_setAt {l : Intersection} {i : Nat} (h : 1 ≤ i) (v : ConnectedRoad) :
    (setAt l i v).tail = setAt l.tail (i - 1) v := by
  cases l with
  | nil => rfl
  | cons x t =>
    cases i with
    | zero => omega
    | succ j => rfl

theorem nth_dropLast {l : Intersection} {i : Nat} (h : i < l.length - 1) :
    nth l.dropLast i = nth l i := by
  have h1 : i < l.dropLast.length := by
    rw [List.length_dropLast]
    exact h
  have h2 : i < l.length := by omega
  rw [nth_eq_getElem h1, nth_eq_getElem h2]
  exact List.getElem_dropLast l i h1

theorem nth_eraseIdx_one_zero (l : Intersection) : nth (l.eraseIdx 1) 0 = nth l 0 := by
  cases l with
  | nil => rfl
  | cons x t => cases t <;> rfl

theorem mergeRoads_eid (x y : ConnectedRoad) :
    (mergeRoads x y).eid = x.eid ∨ (mergeRoads x y).eid = y.eid := by
  unfold mergeRoads
  dsimp only
  split_ifs
  · exact Or.inl rfl
  · exact Or.inr rfl

theorem tail_dropLast (l : Intersection) : l.dropLast.tail = l.tail.dropLast := by
  cases l with
  | nil => rfl
  | cons x t => cases t <;> rfl

theorem tail_setAt_zero (l : Intersection) (v : ConnectedRoad) :
    (setAt l 0 v).tail = l.tail := by
  cases l <;> rfl

theorem tail_mapIdxFrom (f : Nat → ConnectedRoad → ConnectedRoad) (i : Nat)
    (l : Intersection) : (mapIdxFrom f i l).tail = mapIdxFrom f (i + 1) l.tail := by
  cases l <;> rfl

theorem tail_eraseIdx_one (l : Intersection) : (l.eraseIdx 1).tail = l.tail.eraseIdx 0 := by
  cases l <;> rfl

theorem afterFirstPair_length_pos (env : Env) (node : NodeID) {xs : Intersection}
    (hn : 2 ≤ xs.length) : 0 < (afterFirstPair env node xs).1.length := by
  unfold afterFirstPair
  split_ifs <;> dsimp only
  · rw [List.length_dropLast, setAt_length, mapIdxFrom_length]
    omega
  · rw [List.length_eraseIdx, setAt_length, mapIdxFrom_length]
    split_ifs <;> omega
  · omega

theorem afterFirstPair_head (env : Env) (node : NodeID) {xs : Intersection}
    (hn : 2 ≤ xs.length) :
    ((nth (afterFirstPair env node xs).1 0).angle = 0 ∧
      ((nth (afterFirstPair env node xs).1 0).eid = (nth xs 0).eid ∨
       (nth (afterFirstPair env node xs).1 0).eid = (nth xs (xs.length - 1)).eid ∨
       (nth (afterFirstPair env node xs).1 0).eid = (nth xs 1).eid)) ∨
    nth (afterFirstPair env node xs).1 0 = nth xs 0 := by
  unfold afterFirstPair
  split_ifs <;> dsimp only
  · left
    rw [nth_dropLast (by rw [setAt_length, mapIdxFrom_length]; omega),
      nth_setAt_self (by rw [mapIdxFrom_length]; omega)]
    refine ⟨rfl, ?_⟩
    rcases mergeRoads_eid (nth xs 0) (nth xs (xs.length - 1)) with h | h
    · exact Or.inl h
    · exact Or.inr (Or.inl h)
  · left
    rw [nth_eraseIdx_one_zero, nth_setAt_self (by rw [mapIdxFrom_length]; omega)]
    refine ⟨rfl, ?_⟩
    rcases mergeRoads_eid (nth xs 0) (nth xs 1) with h | h
    · exact Or.inl h
    · exact Or.inr (Or.inr h)
  · exact Or.inr rfl

theorem afterFirstPair_tailP (env : Env) (node : NodeID) {xs : Intersection}
    {P : EdgeID → Prop} (hT : ∀ r ∈ xs.tail, P r.eid) :
    ∀ r ∈ (afterFirstPair env node xs).1.tail, P r.eid := by
  have hshift : ∀ (f : Nat → ConnectedRoad → ConnectedRoad),
      (∀ i r, (f i r).eid = r.eid) →
      ∀ r ∈ (mapIdxFrom f 0 xs).tail, P r.eid := by
    intro f hf r hr
    rw [tail_mapIdxFrom] at hr
    obtain ⟨j, hj, rfl⟩ := mem_mapIdxFrom hr
    rw [hf]
    exact hT _ (nth_mem hj)
  intro r hr
  unfold afterFirstPair at hr
  split_ifs at hr <;> dsimp only at hr
  · rw [tail_dropLast, tail_setAt_zero] at hr
    have hr' := List.dropLast_subset _ hr
    refine hshift _ ?_ r hr'
    intro i r'
    split_ifs <;> rfl
  · rw [tail_eraseIdx_one, tail_setAt_zero] at hr
    have hr' := (List.eraseIdx_sublist _ 0).subset hr
    refine hshift _ ?_ r hr'
    intro i r'
    split_ifs <;> rfl
  · exact hT r hr

theorem afterFirstPair_memP (env : Env) (node : NodeID) {xs : Intersection}
    {P : EdgeID → Prop} (hn : 2 ≤ xs.length) (hall : ∀ r ∈ xs, P r.eid) :
    ∀ r ∈ (afterFirstPair env node xs).1, P r.eid := by
  have hshift : ∀ (f : Nat → ConnectedRoad → ConnectedRoad),
      (∀ i r, (f i r).eid = r.eid) →
      ∀ r ∈ mapIdxFrom f 0 xs, P r.eid := by
    intro f hf r hr
    obtain ⟨j, hj, rfl⟩ := mem_mapIdxFrom hr
    rw [hf]
    exact hall _ (nth_mem hj)
  intro r hr
  unfold afterFirstPair at hr
  split_ifs at hr <;> dsimp only at hr
  · have hr' := (List.dropLast_sublist _).subset hr
    rcases mem_setAt hr' with rfl | hmem
    · rcases mergeRoads_eid (nth xs 0) (nth xs (xs.length - 1)) with h | h
      · show P (mergeRoads (nth xs 0) (nth xs (xs.length - 1))).eid
        rw [h]
        exact hall _ (nth_mem (by omega))
      · show P (mergeRoads (nth xs 0) (nth xs (xs.length - 1))).eid
        rw [h]
        exact hall _ (nth_mem (by omega))
    · refine hshift _ ?_ r hmem
      intro i r'
      split_ifs <;> rfl
  · have hr' := (List.eraseIdx_sublist _ 1).subset hr
    rcases mem_setAt hr' with rfl | hmem
    · rcases mergeRoads_eid (nth xs 0) (nth xs 1) with h | h
      · show P (mergeRoads (nth xs 0) (nth xs 1)).eid
        rw [h]
        exact hall _ (nth_mem (by omega))
      · show P (mergeRoads (nth xs 0) (nth xs 1)).eid
        rw [h]
        exact hall _ (nth_mem (by omega))
    · refine hshift _ ?_ r hmem
      intro i r'
      split_ifs <;> rfl
  · exact hall r hr

theorem afterRoundabout_length (env : Env) (node : NodeID) (xs : Intersection) :
    (afterRoundabout env node xs).length = (afterFirstPair env node xs).1.length := by
  unfold afterRoundabout
  split_ifs
  · exact setAt_length _ _ _
  · rfl

theorem afterRoundabout_head (env : Env) (node : NodeID) {xs : Intersection}
    (hn : 2 ≤ xs.length) :
    (nth (afterRoundabout env node xs) 0).angle =
        (nth (afterFirstPair env node xs).1 0).angle ∧
    (nth (afterRoundabout env node xs) 0).eid =
        (nth (afterFirstPair env node xs).1 0).eid := by
  unfold afterRoundabout
  split_ifs
  · rw [nth_setAt_self (afterFirstPair_length_pos env node hn)]
    exact ⟨rfl, rfl⟩
  · exact ⟨rfl, rfl⟩

theorem afterRoundabout_tailP (env : Env) (node : NodeID) {xs : Intersection}
    {P : EdgeID → Prop} (hT : ∀ r ∈ xs.tail, P r.eid) :
    ∀ r ∈ (afterRoundabout env node xs).tail, P r.eid := by
  intro r hr
  unfold afterRoundabout at hr
  split_ifs at hr
  · rw [tail_setAt_zero] at hr
    exact afterFirstPair_tailP env node hT r hr
  · exact afterFirstPair_tailP env node hT r hr

theorem afterRoundabout_memP (env : Env) (node : NodeID) {xs : Intersection}
    {P : EdgeID → Prop} (hn : 2 ≤ xs.length) (hall : ∀ r ∈ xs, P r.eid) :
    ∀ r ∈ afterRoundabout env node xs, P r.eid := by
  intro r hr
  unfold afterRoundabout at hr
  split_ifs at hr
  · rcases mem_setAt hr with rfl | hmem
    · show P (nth (afterFirstPair env node xs).1 0).eid
      exact afterFirstPair_memP env node hn hall _
        (nth_mem (afterFirstPair_length_pos env node hn))
    · exact afterFirstPair_memP env node hn hall r hmem
  · exact afterFirstPair_memP env node hn hall r hr

theorem afterRoundabout_inRange (env : Env) (node : NodeID) {xs : Intersection}
    (hsorted : List.Sorted byAngle xs) (hrange : ∀ r ∈ xs, inRange r) :
    ∀ r ∈ afterRoundabout env node xs, inRange r := by
  have hAF : ∀ r ∈ (afterFirstPair env node xs).1, inRange r := by
    intro r hr
    unfold afterFirstPair at hr
    split_ifs at hr <;> dsimp only at hr
    · exact branch1_inRange hsorted hrange r hr
    · exact branch2_inRange hsorted hrange r hr
    · exact hrange r hr
  intro r hr
  unfold afterRoundabout at hr
  split_ifs at hr
  · exact setAt_entry_inRange hAF r hr
  · exact hAF r hr

theorem mergeSweepStep_nth_zero (env : Env) (node : NodeID) (l : Intersection)
    {i : Nat} (h2 : 2 ≤ i) : nth (mergeSweepStep env node l i) 0 = nth l 0 := by
  unfold mergeSweepStep
  dsimp only
  split_ifs
  · rw [nth_setAt_ne _ (by omega) _, nth_setAt_ne _ (by omega) _]
  · rfl

theorem mergeSweep_nth_zero (env : Env) (node : NodeID) (l : Intersection) :
    nth (mergeSweep env node l) 0 = nth l 0 := by
  unfold mergeSweep
  suffices hgen : ∀ is : List Nat, (∀ i ∈ is, 2 ≤ i) → ∀ l' : Intersection,
      nth (is.foldl (mergeSweepStep env node) l') 0 = nth l' 0 by
    refine hgen _ (fun i hi => ?_) l
    have := List.mem_range'_1.mp hi
    omega
  intro is
  induction is with
  | nil => intro _ l'; rfl
  | cons i is ih =>
    intro his l'
    rw [List.foldl_cons, ih (fun j hj => his j (List.mem_cons_of_mem _ hj)),
      mergeSweepStep_nth_zero env node l' (his i (List.mem_cons_self _ _))]

theorem mergeSweepStep_memP (env : Env) (node : NodeID) {l : Intersection}
    (P : EdgeID → Prop) (hall : ∀ r ∈ l, P r.eid) (hS : P SPECIAL_EDGEID)
    {i : Nat} (hi : i < l.length) (h2 : 2 ≤ i) :
    ∀ r ∈ mergeSweepStep env node l i, P r.eid := by
  intro r hr
  unfold mergeSweepStep at hr
  dsimp only at hr
  split_ifs at hr
  · rcases mem_setAt hr with rfl | hr'
    · exact hS
    · rcases mem_setAt hr' with rfl | hr''
      · show P (mergeRoads (nth l (i - 1)) (nth l i)).eid
        rcases mergeRoads_eid (nth l (i - 1)) (nth l i) with h | h <;> rw [h]
        · exact hall _ (nth_mem (by omega))
        · exact hall _ (nth_mem hi)
      · exact hall r hr''
  · exact hall r hr

theorem mergeSweep_memP (env : Env) (node : NodeID) {l : Intersection}
    (P : EdgeID → Prop) (hall : ∀ r ∈ l, P r.eid) (hS : P SPECIAL_EDGEID) :
    ∀ r ∈ mergeSweep env node l, P r.eid := by
  unfold mergeSweep
  suffices hgen : ∀ is : List Nat, (∀ i ∈ is, 2 ≤ i ∧ i < l.length) →
      ∀ l' : Intersection, l'.length = l.length → (∀ r ∈ l', P r.eid) →
      ∀ r ∈ is.foldl (mergeSweepStep env node) l', P r.eid by
    refine hgen _ (fun i hi => ?_) l rfl hall
    have := List.mem_range'_1.mp hi
    omega
  intro is
  induction is with
  | nil => intro _ l' _ h' r hr; exact h' r hr
  | cons i is ih =>
    intro his l' hlen h' r hr
    rw [List.foldl_cons] at hr
    have hi := his i (List.mem_cons_self _ _)
    exact ih (fun j hj => his j (List.mem_cons_of_mem _ hj)) _
      (by rw [mergeSweepStep_length]; exact hlen)
      (mergeSweepStep_memP env node P h' hS (by omega) hi.1) r hr

theorem mergeSweepStep_tailP (env : Env) (node : NodeID) {l : Intersection}
    (P : EdgeID → Prop) (hT : ∀ r ∈ l.tail, P r.eid) (hS : P SPECIAL_EDGEID)
    {i : Nat} (hi : i < l.length) (h2 : 2 ≤ i) :
    ∀ r ∈ (mergeSweepStep env node l i).tail, P r.eid := by
  intro r hr
  unfold mergeSweepStep at hr
  dsimp only at hr
  split_ifs at hr
  · rw [tail_setAt (by omega), tail_setAt (by omega)] at hr
    rcases mem_setAt hr with rfl | hr'
    · exact hS
    · rcases mem_setAt hr' with rfl | hr''
      · show P (mergeRoads (nth l (i - 1)) (nth l i)).eid
        rcases mergeRoads_eid (nth l (i - 1)) (nth l i) with h | h <;> rw [h]
        · have hm : nth l.tail (i - 2) ∈ l.tail := by
            refine nth_mem ?_
            rw [List.length_tail]
            omega
          rw [nth_tail] at hm
          have hidx : i - 2 + 1 = i - 1 := by omega
          rw [hidx] at hm
          exact hT _ hm
        · have hm : nth l.tail (i - 1) ∈ l.tail := by
            refine nth_mem ?_
            rw [List.length_tail]
            omega
          rw [nth_tail] at hm
          have hidx : i - 1 + 1 = i := by omega
          rw [hidx] at hm
          exact hT _ hm
      · exact hT r hr''
  · exact hT r hr

theorem mergeSweep_tailP (env : Env) (node : NodeID) {l : Intersection}
    (P : EdgeID → Prop) (hT : ∀ r ∈ l.tail, P r.eid) (hS : P SPECIAL_EDGEID) :
    ∀ r ∈ (mergeSweep env node l).tail, P r.eid := by
  unfold mergeSweep
  suffices hgen : ∀ is : List Nat, (∀ i ∈ is, 2 ≤ i ∧ i < l.length) →
      ∀ l' : Intersection, l'.length = l.length → (∀ r ∈ l'.tail, P r.eid) →
      ∀ r ∈ (is.foldl (mergeSweepStep env node) l').tail, P r.eid by
    refine hgen _ (fun i hi => ?_) l rfl hT
    have := List.mem_range'_1.mp hi
    omega
  intro is
  induction is with
  | nil => intro _ l' _ h' r hr; exact h' r hr
  | cons i is ih =>
    intro his l' hlen h' r hr
    rw [List.foldl_cons] at hr
    have hi := his i (List.mem_cons_self _ _)
    exact ih (fun j hj => his j (List.mem_cons_of_mem _ hj)) _
      (by rw [mergeSweepStep_length]; exact hlen)
      (mergeSweepStep_tailP env node P h' hS (by omega) hi.1) r hr

theorem sort_filter_head {l : Intersection} (hl : l ≠ [])
    (hzeid : (nth l 0).eid ≠ SPECIAL_EDGEID) :
    sortByAngle (l.filter fun road => road.eid ≠ SPECIAL_EDGEID) ≠ [] ∧
    nth l 0 ∈ sortByAngle (l.filter fun road => road.eid ≠ SPECIAL_EDGEID) := by
  have hz : nth l 0 ∈ l := nth_mem (List.length_pos.mpr hl)
  have hzf : nth l 0 ∈ l.filter fun road => road.eid ≠ SPECIAL_EDGEID := by
    rw [List.mem_filter]
    exact ⟨hz, by simpa using hzeid⟩
  have hzs := mem_sortByAngle.mpr hzf
  exact ⟨List.ne_nil_of_mem hzs, hzs⟩

theorem sort_filter_tail {l : Intersection} {P : EdgeID → Prop} (hl : l ≠ [])
    (hzeid : (nth l 0).eid ≠ SPECIAL_EDGEID) (hzangle : (nth l 0).angle = 0)
    (hrange : ∀ b ∈ l, inRange b)
    (hT : ∀ b ∈ l.tail, P b.eid ∨ b.eid = SPECIAL_EDGEID) :
    ∀ r ∈ (sortByAngle (l.filter fun road => road.eid ≠ SPECIAL_EDGEID)).tail,
      P r.eid := by
  intro r hr
  have hfil : l.filter (fun road => road.eid ≠ SPECIAL_EDGEID) =
      nth l 0 :: l.tail.filter (fun road => road.eid ≠ SPECIAL_EDGEID) := by
    conv_lhs => rw [eq_nth_zero_cons hl]
    rw [List.filter_cons_of_pos (by simpa using hzeid)]
  rw [hfil] at hr
  have hmin : ∀ b ∈ l.tail.filter (fun road => road.eid ≠ SPECIAL_EDGEID),
      (nth l 0).angle ≤ b.angle := by
    intro b hb
    have hbl : b ∈ l := List.mem_of_mem_tail (List.mem_of_mem_filter hb)
    rw [hzangle]
    exact (hrange b hbl).1.1
  rw [sortByAngle_cons_min hmin, List.tail_cons, mem_sortByAngle] at hr
  have hmem := List.mem_of_mem_filter hr
  have hp := (List.mem_filter.mp hr).2
  rcases hT r hmem with h | h
  · exact h
  · exact absurd h (by simpa using hp)

/-- The segregated merge preserves the pipeline head-and-tail invariant: on
a sorted, in-range, sentinel-free, non-empty intersection whose slot-0
angle is below machine epsilon, the result is non-empty, its slot-0 angle
is below machine epsilon, and a predicate holding for every tail edge id
(and, either exactly at slot-0 angle zero, or for every entry) still holds
for every tail edge id of the result. -/
theorem MergeSegregatedRoads_main (env : Env) (node : NodeID) {xs : Intersection}
    {P : EdgeID → Prop}
    (hsorted : List.Sorted byAngle xs) (hrange : ∀ r ∈ xs, inRange r)
    (hnos : ∀ r ∈ xs, r.eid ≠ SPECIAL_EDGEID) (hne : xs ≠ [])
    (h0 : (nth xs 0).angle < MACHINE_EPS)
    (hT : ∀ r ∈ xs.tail, P r.eid)
    (hz : (nth xs 0).angle = 0 ∨ ∀ r ∈ xs, P r.eid) :
    MergeSegregatedRoads env node xs ≠ [] ∧
    (nth (MergeSegregatedRoads env node xs) 0).angle < MACHINE_EPS ∧
    ∀ r ∈ (MergeSegregatedRoads env node xs).tail, P r.eid := by
  rw [MergeSegregatedRoads_eq]
  by_cases hn : xs.length ≤ 1
  · rw [if_pos hn]
    exact ⟨hne, h0, hT⟩
  · rw [if_neg hn]
    have hn2 : 2 ≤ xs.length := by omega
    have hswlen : (mergeSweep env node (afterRoundabout env node xs)).length =
        (afterRoundabout env node xs).length := mergeSweep_length env node _
    have hARlen : 0 < (afterRoundabout env node xs).length := by
      rw [afterRoundabout_length]
      exact afterFirstPair_length_pos env node hn2
    have hswne : mergeSweep env node (afterRoundabout env node xs) ≠ [] := by
      rw [← List.length_pos, hswlen]
      exact hARlen
    have hhead := afterRoundabout_head env node hn2
    have hAFhead := afterFirstPair_head env node hn2
    have hsw0 : nth (mergeSweep env node (afterRoundabout env node xs)) 0 =
        nth (afterRoundabout env node xs) 0 := mergeSweep_nth_zero env node _
    have hzeid : (nth (mergeSweep env node (afterRoundabout env node xs)) 0).eid ≠
        SPECIAL_EDGEID := by
      rw [hsw0, hhead.2]
      rcases hAFhead with ⟨-, he⟩ | he
      · rcases he with h | h | h <;> rw [h]
        · exact hnos _ (nth_mem (by omega))
        · exact hnos _ (nth_mem (by omega))
        · exact hnos _ (nth_mem (by omega))
      · rw [he]
        exact hnos _ (nth_mem (by omega))
    have hzlt : (nth (mergeSweep env node (afterRoundabout env node xs)) 0).angle <
        MACHINE_EPS := by
      rw [hsw0, hhead.1]
      rcases hAFhead with ⟨ha, -⟩ | he
      · rw [ha]
        norm_num [MACHINE_EPS]
      · rw [he]
        exact h0
    obtain ⟨hMne, hMmem⟩ := sort_filter_head hswne hzeid
    refine ⟨hMne, ?_, ?_⟩
    · exact lt_of_le_of_lt (sorted_head_le (sortByAngle_sorted _) hMmem) hzlt
    · rcases hz with hz0 | hallP
      · have hzangle0 :
            (nth (mergeSweep env node (afterRoundabout env node xs)) 0).angle = 0 := by
          rw [hsw0, hhead.1]
          rcases hAFhead with ⟨ha, -⟩ | he
          · exact ha
          · rw [he]
            exact hz0
        have hswrange : ∀ b ∈ mergeSweep env node (afterRoundabout env node xs),
            inRange b :=
          mergeSweep_inRange env node (afterRoundabout_inRange env node hsorted hrange)
        have hswtail : ∀ b ∈ (mergeSweep env node (afterRoundabout env node xs)).tail,
            P b.eid ∨ b.eid = SPECIAL_EDGEID := by
          refine mergeSweep_tailP env node (fun e => P e ∨ e = SPECIAL_EDGEID)
            ?_ (Or.inr rfl)
          exact fun b hb => Or.inl (afterRoundabout_tailP env node hT b hb)
        exact sort_filter_tail hswne hzeid hzangle0 hswrange hswtail
      · intro r hr
        have hr' := List.mem_of_mem_tail hr
        rw [mem_sortByAngle] at hr'
        have hmem := (List.mem_filter.mp hr').1
        have hp := (List.mem_filter.mp hr').2
        have hsw : ∀ b ∈ mergeSweep env node (afterRoundabout env node xs),
            P b.eid ∨ b.eid = SPECIAL_EDGEID := by
          refine mergeSweep_memP env node (fun e => P e ∨ e = SPECIAL_EDGEID)
            ?_ (Or.inr rfl)
          exact fun b hb => Or.inl (afterRoundabout_memP env node hn2 hallP b hb)
        rcases hsw r hmem with h | h
        · exact h
        · exact absurd h (by simpa using hp)

theorem scanned_no_uturn (env : Env) (frm viaEid : Nat) (hWF : WF env) (onlyTo : NodeID)
    (hu : hasUturnEdge env frm viaEid (env.target viaEid)
      (env.laneCountAtIntersection (env.target viaEid)) = false) :
    ∀ r ∈ scannedRoads env frm viaEid onlyTo, MACHINE_EPS ≤ r.angle ∧
      r.eid ∈ env.adjacentEdges (env.target viaEid) := by
  intro r hr
  unfold scannedRoads at hr
  dsimp only at hr
  obtain ⟨onto, honto, rfl⟩ := List.mem_map.mp hr
  unfold hasUturnEdge at hu
  rw [List.any_eq_false] at hu
  have hc := hu onto honto
  rw [Bool.or_eq_true, not_or] at hc
  obtain ⟨hc1, hc2⟩ := hc
  have htne : env.target onto ≠ frm := by simpa using hc1
  have hnn : 0 ≤ scanAngle env frm viaEid (env.target viaEid)
      (env.laneCountAtIntersection (env.target viaEid)) onto := by
    unfold scanAngle
    dsimp only
    exact (hWF.1 _ _ _).1
  have hq : qabs (scanAngle env frm viaEid (env.target viaEid)
      (env.laneCountAtIntersection (env.target viaEid)) onto) =
      scanAngle env frm viaEid (env.target viaEid)
        (env.laneCountAtIntersection (env.target viaEid)) onto := by
    unfold qabs
    rw [if_neg (not_lt.mpr hnn)]
  have hb : ¬ scanAngle env frm viaEid (env.target viaEid)
      (env.laneCountAtIntersection (env.target viaEid)) onto < MACHINE_EPS := by
    intro hlt
    refine hc2 ?_
    rw [Bool.and_eq_true]
    refine ⟨by simpa using htne, ?_⟩
    rw [hq]
    exact decide_eq_true hlt
  have hangle := le_of_not_lt hb
  unfold roadFor
  dsimp only
  rw [if_neg (fun h => htne h.symm)]
  exact ⟨hangle, honto⟩

theorem scanned_uturn_exists (env : Env) (frm viaEid : Nat) (hWF : WF env)
    (onlyTo : NodeID)
    (hu : hasUturnEdge env frm viaEid (env.target viaEid)
      (env.laneCountAtIntersection (env.target viaEid)) = true) :
    ∃ r ∈ scannedRoads env frm viaEid onlyTo, r.angle < MACHINE_EPS := by
  unfold hasUturnEdge at hu
  rw [List.any_eq_true] at hu
  obtain ⟨onto, honto, hcond⟩ := hu
  refine ⟨roadFor env frm viaEid (env.target viaEid) onlyTo
    (env.laneCountAtIntersection (env.target viaEid)) onto, ?_, ?_⟩
  · unfold scannedRoads
    dsimp only
    exact List.mem_map_of_mem _ honto
  · rw [Bool.or_eq_true] at hcond
    rcases hcond with h | h
    · have htf : env.target onto = frm := by simpa using h
      unfold roadFor
      dsimp only
      rw [if_pos htf.symm]
      show (0 : ℚ) < MACHINE_EPS
      norm_num [MACHINE_EPS]
    · rw [Bool.and_eq_true] at h
      obtain ⟨ha, hb⟩ := h
      have htne : env.target onto ≠ frm := by simpa using ha
      have hlt := of_decide_eq_true hb
      have hnn : 0 ≤ scanAngle env frm viaEid (env.target viaEid)
          (env.laneCountAtIntersection (env.target viaEid)) onto := by
        unfold scanAngle
        dsimp only
        exact (hWF.1 _ _ _).1
      have hq : qabs (scanAngle env frm viaEid (env.target viaEid)
          (env.laneCountAtIntersection (env.target viaEid)) onto) =
          scanAngle env frm viaEid (env.target viaEid)
            (env.laneCountAtIntersection (env.target viaEid)) onto := by
        unfold qabs
        rw [if_neg (not_lt.mpr hnn)]
      rw [hq] at hlt
      unfold roadFor
      dsimp only
      rw [if_neg (fun hh => htne hh.symm)]
      exact hlt

theorem GetConnectedRoads_no_uturn_facts (env : Env) (frm viaEid : Nat) (hWF : WF env)
    (hu : hasUturnEdge env frm viaEid (env.target viaEid)
      (env.laneCountAtIntersection (env.target viaEid)) = false) :
    GetConnectedRoads env frm viaEid ≠ [] ∧
    (nth (GetConnectedRoads env frm viaEid) 0).angle = 0 ∧
    ∀ r ∈ (GetConnectedRoads env frm viaEid).tail,
      r.eid ∈ env.adjacentEdges (env.target viaEid) := by
  have hscan := scanned_no_uturn env frm viaEid hWF
    (onlyRestrictionToNode env frm (env.target viaEid)) hu
  have hws : withSynthetic env frm viaEid
      (onlyRestrictionToNode env frm (env.target viaEid)) =
      scannedRoads env frm viaEid (onlyRestrictionToNode env frm (env.target viaEid)) ++
        [syntheticUturn env frm viaEid (env.target viaEid)] := by
    unfold withSynthetic
    dsimp only
    rw [hu]
    simp only [Bool.false_eq_true, if_false]
  have hsyn_notmem : syntheticUturn env frm viaEid (env.target viaEid) ∉
      scannedRoads env frm viaEid (onlyRestrictionToNode env frm (env.target viaEid)) := by
    intro h
    have h1 := (hscan _ h).1
    have h2 : (syntheticUturn env frm viaEid (env.target viaEid)).angle = 0 := rfl
    rw [h2] at h1
    norm_num [MACHINE_EPS] at h1
  have hx : syntheticUturn env frm viaEid (env.target viaEid) ∈
      scannedRoads env frm viaEid (onlyRestrictionToNode env frm (env.target viaEid)) ++
        [syntheticUturn env frm viaEid (env.target viaEid)] :=
    List.mem_append_right _ (List.mem_singleton.mpr rfl)
  have hmin : ∀ y ∈ scannedRoads env frm viaEid
      (onlyRestrictionToNode env frm (env.target viaEid)) ++
        [syntheticUturn env frm viaEid (env.target viaEid)],
      y = syntheticUturn env frm viaEid (env.target viaEid) ∨
      (syntheticUturn env frm viaEid (env.target viaEid)).angle < y.angle := by
    intro y hy
    rcases List.mem_append.mp hy with h | h
    · right
      have h1 := (hscan y h).1
      show (syntheticUturn env frm viaEid (env.target viaEid)).angle < y.angle
      have h2 : (syntheticUturn env frm viaEid (env.target viaEid)).angle = 0 := rfl
      rw [h2]
      refine lt_of_lt_of_le ?_ h1
      norm_num [MACHINE_EPS]
    · left
      exact List.mem_singleton.mp h
  obtain ⟨t, hsort, hsub⟩ := sortByAngle_strict_min hx hmin
  have hcount : (scannedRoads env frm viaEid
      (onlyRestrictionToNode env frm (env.target viaEid)) ++
        [syntheticUturn env frm viaEid (env.target viaEid)]).count
      (syntheticUturn env frm viaEid (env.target viaEid)) = 1 := by
    rw [List.count_append, List.count_eq_zero_of_not_mem hsyn_notmem,
      List.count_cons_self, List.count_nil]
  have hperm := sortByAngle_perm (scannedRoads env frm viaEid
      (onlyRestrictionToNode env frm (env.target viaEid)) ++
        [syntheticUturn env frm viaEid (env.target viaEid)])
  rw [hsort] at hperm
  have hc2 := hperm.count_eq (syntheticUturn env frm viaEid (env.target viaEid))
  rw [hcount, List.count_cons_self] at hc2
  have hnot : syntheticUturn env frm viaEid (env.target viaEid) ∉ t := by
    rw [← List.count_eq_zero]
    omega
  have htmem : ∀ r ∈ t, r ∈ scannedRoads env frm viaEid
      (onlyRestrictionToNode env frm (env.target viaEid)) := by
    intro r hr
    rcases List.mem_append.mp (hsub r hr) with h | h
    · exact h
    · rw [List.mem_singleton.mp h] at hr
      exact absurd hr hnot
  have hsr : sortedRaw env frm viaEid (onlyRestrictionToNode env frm (env.target viaEid)) =
      syntheticUturn env frm viaEid (env.target viaEid) :: t := by
    show sortByAngle (withSynthetic env frm viaEid
      (onlyRestrictionToNode env frm (env.target viaEid))) = _
    rw [hws]
    exact hsort
  have hGdef : GetConnectedRoads env frm viaEid =
      applyDeadEndFlag env frm
        (uturnCouldBeValid env frm (env.target viaEid)
          (onlyRestrictionToNode env frm (env.target viaEid)))
        (sortedRaw env frm viaEid
          (onlyRestrictionToNode env frm (env.target viaEid))) := rfl
  have hmapA := applyDeadEndFlag_map_angle env frm
    (uturnCouldBeValid env frm (env.target viaEid)
      (onlyRestrictionToNode env frm (env.target viaEid)))
    (sortedRaw env frm viaEid (onlyRestrictionToNode env frm (env.target viaEid)))
  have hmapE := applyDeadEndFlag_map_eid env frm
    (uturnCouldBeValid env frm (env.target viaEid)
      (onlyRestrictionToNode env frm (env.target viaEid)))
    (sortedRaw env frm viaEid (onlyRestrictionToNode env frm (env.target viaEid)))
  refine ⟨?_, ?_, ?_⟩
  · rw [hGdef, ← List.length_pos, applyDeadEndFlag_length, hsr]
    simp
  · rw [hGdef, nth_angle_of_map_eq hmapA 0, hsr, nth_cons_zero]
    rfl
  · intro r hr
    rw [hGdef] at hr
    obtain ⟨r', hr', he⟩ := mem_tail_eid hmapE hr
    rw [← he]
    rw [hsr] at hr'
    simp only [List.tail_cons] at hr'
    exact (hscan r' (htmem r' hr')).2

theorem GetConnectedRoads_uturn_facts (env : Env) (frm viaEid : Nat) (hWF : WF env)
    (hu : hasUturnEdge env frm viaEid (env.target viaEid)
      (env.laneCountAtIntersection (env.target viaEid)) = true) :
    GetConnectedRoads env frm viaEid ≠ [] ∧
    (nth (GetConnectedRoads env frm viaEid) 0).angle < MACHINE_EPS := by
  obtain ⟨r₀, hr₀, hr₀lt⟩ := scanned_uturn_exists env frm viaEid hWF
    (onlyRestrictionToNode env frm (env.target viaEid)) hu
  have hws : withSynthetic env frm viaEid
      (onlyRestrictionToNode env frm (env.target viaEid)) =
      scannedRoads env frm viaEid (onlyRestrictionToNode env frm (env.target viaEid)) := by
    unfold withSynthetic
    dsimp only
    rw [hu]
    simp only [if_true]
  have hGdef : GetConnectedRoads env frm viaEid =
      applyDeadEndFlag env frm
        (uturnCouldBeValid env frm (env.target viaEid)
          (onlyRestrictionToNode env frm (env.target viaEid)))
        (sortedRaw env frm viaEid
          (onlyRestrictionToNode env frm (env.target viaEid))) := rfl
  have hr₀s : r₀ ∈ sortedRaw env frm viaEid
      (onlyRestrictionToNode env frm (env.target viaEid)) := by
    show r₀ ∈ sortByAngle (withSynthetic env frm viaEid
      (onlyRestrictionToNode env frm (env.target viaEid)))
    rw [mem_sortByAngle, hws]
    exact hr₀
  constructor
  · rw [hGdef, ← List.length_pos, applyDeadEndFlag_length]
    exact List.length_pos_of_mem hr₀s
  · rw [hGdef, nth_angle_of_map_eq (applyDeadEndFlag_map_angle env frm
      (uturnCouldBeValid env frm (env.target viaEid)
        (onlyRestrictionToNode env frm (env.target viaEid)))
      (sortedRaw env frm viaEid
        (onlyRestrictionToNode env frm (env.target viaEid)))) 0]
    refine lt_of_le_of_lt (sorted_head_le ?_ hr₀s) hr₀lt
    show List.Sorted byAngle (sortByAngle (withSynthetic env frm viaEid
      (onlyRestrictionToNode env frm (env.target viaEid))))
    exact sortByAngle_sorted _

theorem map_eid_of_map_frame {l₁ l₂ : Intersection}
    (h : l₁.map frameFields = l₂.map frameFields) :
    l₁.map (·.eid) = l₂.map (·.eid) := by
  have h2 := congrArg (List.map Prod.fst) h
  rw [List.map_map, List.map_map] at h2
  exact h2

/-- C1 (amended): for every `(from, via)` pair in a well-formed environment
with a genuine (non-sentinel) via edge, the full pipeline returns a
non-empty intersection whose slot-0 angle is below machine epsilon and all
of whose entries beyond slot 0 carry edge ids adjacent to `target(via)`;
the angle sequence is non-decreasing up to and including the
segregated-merge stage.  The counterexample shows that the joining
adjustment can break the sort order of the final result, so the original
claim's ordering conjunct holds only up to the merge stage. -/
theorem C1_amended_pipeline (env : Env) (frm viaEid : Nat) (hWF : WF env)
    (hvia : viaEid ≠ SPECIAL_EDGEID) :
    intersectionAt env frm viaEid ≠ [] ∧
    (nth (intersectionAt env frm viaEid) 0).angle < MACHINE_EPS ∧
    (∀ r ∈ (intersectionAt env frm viaEid).tail,
      r.eid ∈ env.adjacentEdges (env.target viaEid)) ∧
    List.Sorted byAngle (MergeSegregatedRoads env (env.target viaEid)
      (GetConnectedRoads env frm viaEid)) := by
  have hGsorted := GetConnectedRoads_sorted env frm viaEid
  have hGrange := GetConnectedRoads_inRange env hWF frm viaEid
  have hGnos := GetConnectedRoads_no_special env frm viaEid hWF hvia
  have hM : MergeSegregatedRoads env (env.target viaEid)
        (GetConnectedRoads env frm viaEid) ≠ [] ∧
      (nth (MergeSegregatedRoads env (env.target viaEid)
        (GetConnectedRoads env frm viaEid)) 0).angle < MACHINE_EPS ∧
      ∀ r ∈ (MergeSegregatedRoads env (env.target viaEid)
        (GetConnectedRoads env frm viaEid)).tail,
        r.eid ∈ env.adjacentEdges (env.target viaEid) := by
    cases hu : hasUturnEdge env frm viaEid (env.target viaEid)
        (env.laneCountAtIntersection (env.target viaEid)) with
    | false =>
      obtain ⟨hne, h0, hT⟩ := GetConnectedRoads_no_uturn_facts env frm viaEid hWF hu
      exact MergeSegregatedRoads_main env (env.target viaEid) hGsorted hGrange hGnos hne
        (by rw [h0]; norm_num [MACHINE_EPS]) hT (Or.inl h0)
    | true =>
      obtain ⟨hne, h0⟩ := GetConnectedRoads_uturn_facts env frm viaEid hWF hu
      have hall := GetConnectedRoads_eids_of_hasUturn env frm viaEid hu
      exact MergeSegregatedRoads_main env (env.target viaEid) hGsorted hGrange hGnos hne
        h0 (fun r hr => hall r (List.mem_of_mem_tail hr)) (Or.inr hall)
  have hiA : intersectionAt env frm viaEid =
      AdjustForJoiningRoads env (env.target viaEid)
        (MergeSegregatedRoads env (env.target viaEid)
          (GetConnectedRoads env frm viaEid)) := rfl
  have hAlen : ∀ l : Intersection,
      (AdjustForJoiningRoads env (env.target viaEid) l).length = l.length := by
    intro l
    unfold AdjustForJoiningRoads
    split_ifs
    · rfl
    · exact foldlAdjust_length env (env.target viaEid) _ l
  have hA0 : ∀ l : Intersection,
      nth (AdjustForJoiningRoads env (env.target viaEid) l) 0 = nth l 0 := by
    intro l
    unfold AdjustForJoiningRoads
    split_ifs
    · rfl
    · refine foldlAdjust_nth_notmem env (env.target viaEid) _ l 0 ?_
      intro hmem
      have := List.mem_range'_1.mp hmem
      omega
  have hAframe : ∀ l : Intersection,
      (AdjustForJoiningRoads env (env.target viaEid) l).map frameFields =
        l.map frameFields := by
    intro l
    unfold AdjustForJoiningRoads
    split_ifs
    · rfl
    · exact foldlAdjust_map_frame env (env.target viaEid) _ l
  refine ⟨?_, ?_, ?_, MergeSegregatedRoads_sorted env (env.target viaEid) hGsorted⟩
  · rw [hiA, ← List.length_pos, hAlen, List.length_pos]
    exact hM.1
  · rw [hiA, hA0]
    exact hM.2.1
  · intro r hr
    rw [hiA] at hr
    obtain ⟨r', hr', he⟩ := mem_tail_eid (map_eid_of_map_frame (hAframe _)) hr
    rw [← he]
    exact hM.2.2 r' hr'

/-- C1 amended, witnessed on the dead-end environment with via edge `10`. -/
theorem C1_witness :
    intersectionAt envDeadEnd 1 10 ≠ [] ∧
    (nth (intersectionAt envDeadEnd 1 10) 0).angle < MACHINE_EPS ∧
    (∀ r ∈ (intersectionAt envDeadEnd 1 10).tail,
      r.eid ∈ envDeadEnd.adjacentEdges (envDeadEnd.target 10)) ∧
    List.Sorted byAngle (MergeSegregatedRoads envDeadEnd (envDeadEnd.target 10)
      (GetConnectedRoads envDeadEnd 1 10)) :=
  C1_amended_pipeline envDeadEnd 1 10 wf_envDeadEnd (by with_unfolding_all decide)

end OSRM
